import Mathlib

/-!
Verification of the provider negotiation and concurrent dispatch core of the
appointment-booking simulator: the provider ranker (`rankingLogic.ts`), the
negotiation simulator (`receptionistSimulator.ts`) and the swarm orchestrator
(`swarmOrchestrator.ts`), shallowly embedded in Lean.
-/

namespace Booking

/-! ## String utilities

The JavaScript code splits slot strings on single-character separators
(`'T'`, `'-'`, `':'`, `'_'`) and parses the pieces with `Number`/`parseInt`.
We implement the same operations on `List Char` by structural recursion so
that concrete inputs evaluate inside the kernel. -/

/-- Split a character list at every occurrence of `c` (like `s.split(c)`). -/
def splitOnChar (c : Char) : List Char → List (List Char)
  | [] => [[]]
  | x :: xs =>
    match splitOnChar c xs with
    | [] => if x = c then [[], []] else [[x]]
    | h :: t => if x = c then [] :: h :: t else (x :: h) :: t

/-- Split a string at every occurrence of the character `c`. -/
def splitStr (c : Char) (s : String) : List String :=
  (splitOnChar c s.data).map List.asString

/-- Interpret a non-empty list of decimal digits (`Number(s)` on an all-digit
string, `none` otherwise). -/
def digitsToNat? : List Char → Option Nat
  | [] => none
  | l =>
    if l.all Char.isDigit then
      some (l.foldl (fun acc c => acc * 10 + (c.toNat - 48)) 0)
    else none

/-- `Number(s)` / `s.toNat?` on a string expected to hold decimal digits. -/
def strToNat? (s : String) : Option Nat := digitsToNat? s.data

/-- `parseInt(s)`: parse the longest leading run of decimal digits. -/
def parseIntLeading (s : String) : Option Nat :=
  digitsToNat? (s.data.takeWhile Char.isDigit)

/-- `s.replace('Z', '')` in JavaScript removes only the first occurrence of
`'Z'` when the pattern is a plain string. -/
def removeFirstZList : List Char → List Char
  | [] => []
  | c :: cs => if c = 'Z' then cs else c :: removeFirstZList cs

/-- `s.replace('Z', '')` on a string. -/
def replaceFirstZ (s : String) : String := (removeFirstZList s.data).asString

/-- Does the list end with a UTC-offset suffix `+HH:MM` or `-HH:MM`? -/
def hasOffsetSuffix (l : List Char) : Bool :=
  match l.reverse with
  | m2 :: m1 :: ':' :: h2 :: h1 :: sg :: _ =>
    (sg = '+' || sg = '-') && h1.isDigit && h2.isDigit && m1.isDigit && m2.isDigit
  | _ => false

/-- Drop a trailing fraction `.d+` from a character list (reversed helper:
drops leading digits then one dot). -/
def dropFractionRev : List Char → List Char
  | l =>
    let digits := l.takeWhile Char.isDigit
    let rest := l.drop digits.length
    match digits, rest with
    | _ :: _, '.' :: r => r
    | _, _ => l

/-- `s.replace(/(\.\d+)?([Zz]|[+-]\d{2}:\d{2})$/, '')`: strip a trailing zone
designator (and the fractional seconds directly before it, if any). A string
with no zone designator is unchanged. -/
def stripZoneSuffix (s : String) : String :=
  let l := s.data
  match l.reverse with
  | 'Z' :: r => (dropFractionRev r).reverse.asString
  | 'z' :: r => (dropFractionRev r).reverse.asString
  | _ =>
    if hasOffsetSuffix l then
      (dropFractionRev (l.reverse.drop 6)).reverse.asString
    else s

/-! ## Local-time date arithmetic

All slot and intent timestamps are local-time strings `YYYY-MM-DDTHH:MM:SS`
without a UTC offset (spec §6).  The JavaScript code turns them into epoch
milliseconds via `new Date(s).getTime()` and reads the hour via `getHours()`;
on offset-free strings both treat the numeric fields literally (up to the
constant local-zone offset, which cancels in every comparison the code
makes), which is what we model.  A string that does not parse corresponds to
an Invalid Date, whose `NaN` comparisons are all false; we model that with
`Option` and comparisons that are false on `none`. -/

/-- Leap year test (Gregorian). -/
def isLeap (y : Nat) : Bool :=
  (y % 4 == 0 && y % 100 != 0) || y % 400 == 0

/-- Number of days in month `m` of year `y` (1-based month). -/
def daysInMonth (y m : Nat) : Nat :=
  if m == 2 then (if isLeap y then 29 else 28)
  else if m == 4 || m == 6 || m == 9 || m == 11 then 30
  else 31

/-- Days from the civil epoch 1970-01-01 to year/month/day (Hinnant's
days-from-civil algorithm; years here are ≥ 400 so the `Nat` subtractions
are exact). -/
def civilDays (y m d : Nat) : Int :=
  let yAdj : Nat := if m ≤ 2 then y - 1 else y
  let era : Nat := yAdj / 400
  let yoe : Nat := yAdj - era * 400
  let mp : Nat := if m > 2 then m - 3 else m + 9
  let doy : Nat := (153 * mp + 2) / 5 + d - 1
  let doe : Nat := yoe * 365 + yoe / 4 - yoe / 100 + doy
  (era : Int) * 146097 + (doe : Int) - 719468

/-- A parsed local date-time. -/
structure LocalDT where
  year : Nat
  month : Nat
  day : Nat
  hour : Nat
  minute : Nat
  second : Nat
deriving DecidableEq, Repr

/-- Parse the `YYYY-MM-DD` part. -/
def parseDatePart (s : String) : Option (Nat × Nat × Nat) :=
  match (splitStr '-' s).map strToNat? with
  | [some y, some m, some d] =>
    if 1 ≤ m && m ≤ 12 && 1 ≤ d && d ≤ daysInMonth y m then some (y, m, d) else none
  | _ => none

/-- Parse the `HH:MM:SS` (or `HH:MM`) part. -/
def parseTimePart (s : String) : Option (Nat × Nat × Nat) :=
  match (splitStr ':' s).map strToNat? with
  | [some h, some mi] => if h ≤ 23 && mi ≤ 59 then some (h, mi, 0) else none
  | [some h, some mi, some se] =>
    if h ≤ 23 && mi ≤ 59 && se ≤ 59 then some (h, mi, se) else none
  | _ => none

/-- Parse a local-time string `YYYY-MM-DDTHH:MM:SS` (seconds optional). -/
def parseLocal (s : String) : Option LocalDT :=
  match splitStr 'T' s with
  | [ds, ts] =>
    match parseDatePart ds, parseTimePart ts with
    | some (y, m, d), some (h, mi, se) => some ⟨y, m, d, h, mi, se⟩
    | _, _ => none
  | _ => none

/-- `new Date(s).getTime()` on an offset-free local string: epoch
milliseconds of the literal fields (`none` for an Invalid Date). -/
def timeNum (s : String) : Option Int :=
  (parseLocal s).map fun dt =>
    civilDays dt.year dt.month dt.day * 86400000
      + (dt.hour * 3600000 + dt.minute * 60000 + dt.second * 1000 : Nat)

/-- `new Date(s).getHours()` on an offset-free local string. -/
def hourOf (s : String) : Option Nat :=
  (parseLocal s).map LocalDT.hour

/-- The `YYYY-MM-DD` part of a slot string: `s.split('T')[0]`. -/
def datePartOf (s : String) : String :=
  match splitStr 'T' s with
  | [] => s
  | d :: _ => d

/-- The time part of a slot string: `s.includes('T') ? s.split('T')[1] :
'00:00:00'`. -/
def timePartOf (s : String) : String :=
  match splitStr 'T' s with
  | _ :: t :: _ => t
  | _ => "00:00:00"

/-! ## Data model (`schema.ts`)

Numbers in the source are JavaScript floats; every value the core handles
(ratings, miles, weights, probabilities) is a small decimal, which we embed
as `ℚ`. -/

/-- `ProviderMetadata` (`schema.ts`). -/
structure ProviderMetadata where
  accepts_insurance : Option Bool := none
  parking : Option String := none
  specialty : Option String := none
  waitlist : Option Bool := none
  same_day : Option Bool := none
  notes : Option String := none
deriving DecidableEq, Repr

/-- `Provider` (`schema.ts`).  `category` is a closed union in the schema but
synthetic providers cast arbitrary strings into it, so we embed it as
`String`. -/
structure Provider where
  id : String
  name : String
  phone : String
  category : String
  rating : ℚ
  address : String
  distanceMiles : ℚ
  availableSlots : List String
  metadata : Option ProviderMetadata := none
deriving DecidableEq, Repr

/-- `AppointmentIntent.status` (`schema.ts`). -/
inductive IntentStatus where
  | searching | calling | booked | failed
deriving DecidableEq, Repr

/-- `preferredTimeRange` of an intent.  The source field `end` is a Lean
keyword, embedded here as `stop`. -/
structure TimeRange where
  start : String
  stop : String
deriving DecidableEq, Repr

/-- `AppointmentIntent` (`schema.ts`). -/
structure AppointmentIntent where
  userId : String
  serviceType : String
  userLocation : Option String := none
  preferredTimeRange : TimeRange
  maxDistanceMiles : ℚ
  status : IntentStatus
deriving DecidableEq, Repr

/-! ## Provider ranking (`rankingLogic.ts`) -/

/-- `RankingWeights` (`rankingLogic.ts`). -/
structure RankingWeights where
  ratingMultiplier : ℚ
  maxDistanceScore : ℚ
  distanceDecayPerMile : ℚ
  slotMatchBonus : ℚ
deriving DecidableEq, Repr

/-- `DEFAULT_WEIGHTS` (`rankingLogic.ts`). -/
def DEFAULT_WEIGHTS : RankingWeights :=
  { ratingMultiplier := 10
    maxDistanceScore := 30
    distanceDecayPerMile := 5
    slotMatchBonus := 20 }

/-- `RankedProvider extends Provider` (`rankingLogic.ts`): the TS spread
`{ ...provider, finalScore, matchingSlots }` copies every provider field into
a fresh object, embedded as a record holding the copied `Provider`. -/
structure RankedProvider where
  provider : Provider
  finalScore : ℚ
  matchingSlots : List String
deriving DecidableEq, Repr

/-- The slot filter of `scoreProvider`: `new Date(slot).getTime()` lies in
`[start, end]`.  In JavaScript any `NaN` (invalid date) comparison is false,
matched here by the `none` branches. -/
def slotInWindow (slot startS stopS : String) : Bool :=
  match timeNum slot, timeNum startS, timeNum stopS with
  | some t, some a, some b => decide (a ≤ t) && decide (t ≤ b)
  | _, _, _ => false

/-- `scoreProvider` (`rankingLogic.ts`). -/
def scoreProvider (provider : Provider) (intent : AppointmentIntent)
    (weights : RankingWeights := DEFAULT_WEIGHTS) : RankedProvider :=
  let ratingScore := provider.rating * weights.ratingMultiplier
  let distanceScore : ℚ :=
    max 0 (weights.maxDistanceScore - provider.distanceMiles * weights.distanceDecayPerMile)
  let matchingSlots := provider.availableSlots.filter fun slot =>
    slotInWindow slot intent.preferredTimeRange.start intent.preferredTimeRange.stop
  let score := ratingScore + distanceScore
    + (if matchingSlots.length > 0 then weights.slotMatchBonus else 0)
  { provider := provider, finalScore := score, matchingSlots := matchingSlots }

/-- Stable insertion: place `x` (an element earlier in the input than
everything in the list) after exactly those elements that strictly precede
it.  `bef a b = true` means `a` must come strictly before `b`. -/
def stableInsert (bef : α → α → Bool) (x : α) : List α → List α
  | [] => [x]
  | y :: ys => if bef y x then y :: stableInsert bef x ys else x :: y :: ys

/-- Stable sort by the strict-precedence relation `bef`.  `Array.prototype.sort`
is stable (ES2019), and a stable sort is uniquely determined by its
precedence relation, so this insertion sort computes the same list as the
JavaScript `sort`. -/
def stableSort (bef : α → α → Bool) : List α → List α
  | [] => []
  | x :: xs => stableInsert bef x (stableSort bef xs)

/-- The comparator `(a, b) => b.finalScore - a.finalScore`: `a` strictly
precedes `b` iff `a.finalScore > b.finalScore`. -/
def scoreBef (a b : RankedProvider) : Bool := a.finalScore > b.finalScore

/-- `rankProviders` (`rankingLogic.ts`): score every provider, then sort
descending by `finalScore` (stably). -/
def rankProviders (providers : List Provider) (intent : AppointmentIntent)
    (weights : RankingWeights := DEFAULT_WEIGHTS) : List RankedProvider :=
  stableSort scoreBef (providers.map fun p => scoreProvider p intent weights)

/-! ## Negotiation simulator (`receptionistSimulator.ts`) -/

/-- A transcript line role. -/
inductive Role where
  | receptionist | alfred
deriving DecidableEq, Repr

/-- One transcript turn `{ role, message, delay }`. -/
structure TranscriptLine where
  role : Role
  message : String
  delay : Nat
deriving DecidableEq, Repr

/-- `CallResult` (`receptionistSimulator.ts`).  Optional TS fields are
`Option`s. -/
structure CallResult where
  success : Bool
  providerId : String
  providerName : String
  message : String
  bookedSlot : Option String := none
  alternativeSlots : Option (List String) := none
  waitTime : Nat
  transcript : List TranscriptLine
deriving DecidableEq, Repr

/-- The three receptionist personality tiers. -/
inductive PersonalityType where
  | friendly | neutral | busy
deriving DecidableEq, Repr

/-- `ReceptionistPersonality` (`receptionistSimulator.ts`). -/
structure ReceptionistPersonality where
  responseDelay : Nat
  availabilityRate : ℚ
deriving DecidableEq, Repr

/-- The `PERSONALITIES` table. -/
def PERSONALITIES : PersonalityType → ReceptionistPersonality
  | .friendly => { responseDelay := 1200, availabilityRate := 0.8 }
  | .neutral => { responseDelay := 1800, availabilityRate := 0.6 }
  | .busy => { responseDelay := 2500, availabilityRate := 0.4 }

/-- One personality's script template set. -/
structure ScriptSet where
  greeting : String
  requestResponse : String
  available : String
  unavailable : String
  booked : String
  noSlots : String
deriving DecidableEq, Repr

/-- The `SCRIPTS` table (apostrophes written as `\x27`). -/
def SCRIPTS : PersonalityType → ScriptSet
  | .friendly =>
    { greeting := "Good morning! Thank you for calling {providerName}, how can I help you today?"
      requestResponse := "Of course! Let me check our schedule for {slot}..."
      available := "Yes! We have that slot available. I\x27ll book that for you right now."
      unavailable := "I\x27m sorry, that specific time is taken. Would {alternative} work for you instead?"
      booked := "Perfect! You\x27re all set for {slot}. We\x27ll see you then!"
      noSlots := "Unfortunately, we\x27re fully booked for that day. Can I put you on our waitlist?" }
  | .neutral =>
    { greeting := "Hello, {providerName}. How may I assist you?"
      requestResponse := "One moment while I look at the calendar..."
      available := "Yes, that time is open. Shall I book it?"
      unavailable := "That slot is not available. We have {alternative} open."
      booked := "Confirmed for {slot}. Is there anything else?"
      noSlots := "We don\x27t have availability then. Would you like to try another day?" }
  | .busy =>
    { greeting := "{providerName}, please hold... Okay, what do you need?"
      requestResponse := "Hold on... checking..."
      available := "Yeah, we can do that. Booking now."
      unavailable := "No, that\x27s taken. {alternative} is the only option."
      booked := "Done. {slot}. Anything else?"
      noSlots := "Nothing available. Call back next week." }

/-- The personality tier derived from a provider's rating. -/
def personalityFor (rating : ℚ) : PersonalityType :=
  if rating ≥ 4.5 then .friendly else if rating ≥ 4 then .neutral else .busy

/-- `s.replace(pat, repl)` with a string pattern: replace only the first
occurrence. -/
def replaceFirstList (pat repl : List Char) : List Char → List Char
  | [] => []
  | c :: cs =>
    if pat.isPrefixOf (c :: cs) then repl ++ (c :: cs).drop pat.length
    else c :: replaceFirstList pat repl cs

/-- `s.replace(pat, repl)` on strings (first occurrence only). -/
def strReplace (s pat repl : String) : String :=
  (replaceFirstList pat.data repl.data s.data).asString

/-- `category.charAt(0).toUpperCase() + category.slice(1)`. -/
def capitalizeStr (s : String) : String :=
  match s.data with
  | [] => ""
  | c :: cs => (c.toUpper :: cs).asString

/-- `parts[i] || dflt` on a split result: missing or empty picks the
default. -/
def partOr (parts : List String) (i : Nat) (dflt : String) : String :=
  match parts.get? i with
  | some s => if s = "" then dflt else s
  | none => dflt

/-- Simulation context: the provider directory (`directory.json`, external
data) and the two local date strings the synthetic-provider generator
derives from the current clock. -/
structure SimCtx where
  directory : List Provider
  todayStr : String
  tomorrowStr : String

/-- `getProvider` (`receptionistSimulator.ts`): directory lookup, falling
back to an on-the-fly synthetic provider for ids starting with `synth_`. -/
def getProvider (ctx : SimCtx) (providerId : String) : Option Provider :=
  match ctx.directory.find? (fun p => p.id == providerId) with
  | some p => some p
  | none =>
    if List.isPrefixOf "synth_".data providerId.data then
      let parts := splitStr '_' providerId
      let category := partOr parts 1 "service"
      let index := partOr parts 2 "01"
      some
        { id := providerId
          name :=
            if index == "01" then capitalizeStr category ++ " of Boston"
            else "Elite " ++ capitalizeStr category ++ " Care"
          category := category
          phone := if index == "01" then "+1-617-555-9901" else "+1-617-555-9902"
          rating := if index == "01" then 4.7 else 4.9
          address :=
            if index == "01" then "100 Main St, Boston, MA" else "250 Common Ave, Boston, MA"
          distanceMiles := if index == "01" then 0.5 else 1.2
          availableSlots :=
            [ctx.todayStr ++ "T10:00:00", ctx.todayStr ++ "T14:30:00",
              ctx.tomorrowStr ++ "T09:00:00"]
          metadata := some { notes := some "Dynamically generated provider" } }
    else none

/-- Weekday short name of a civil day number (1970-01-01 was a Thursday). -/
def weekdayName (days : Int) : String :=
  (["Sun", "Mon", "Tue", "Wed", "Thu", "Fri", "Sat"].getD ((days + 4).emod 7).toNat "Sun")

/-- Month short name (1-based). -/
def monthName (m : Nat) : String :=
  (["Jan", "Feb", "Mar", "Apr", "May", "Jun", "Jul", "Aug", "Sep", "Oct",
    "Nov", "Dec"].getD (m - 1) "Jan")

/-- Two-digit zero-padded numeral. -/
def pad2 (n : Nat) : String := if n < 10 then "0" ++ toString n else toString n

/-- `formatSlot` (`receptionistSimulator.ts`): strip any zone suffix, read
the numeric fields literally, and render them in the `en-US` short style
(`"Mon, Jun 2, 10:00 AM"`).  JavaScript's `Date.UTC` silently normalizes
out-of-range fields; for those inputs (and unparsable ones) we render
`"Invalid Date"`, which is what the source produces for unparsable input. -/
def formatSlot (isoString : String) : String :=
  let clean := stripZoneSuffix isoString
  match parseLocal clean with
  | none => "Invalid Date"
  | some dt =>
    let wd := weekdayName (civilDays dt.year dt.month dt.day)
    let mon := monthName dt.month
    let day := toString dt.day
    let h12 := if dt.hour % 12 == 0 then 12 else dt.hour % 12
    let mm := pad2 dt.minute
    let ampm := if dt.hour < 12 then "AM" else "PM"
    wd ++ ", " ++ mon ++ " " ++ day ++ ", " ++ toString h12 ++ ":" ++ mm ++ " " ++ ampm

/-- `transcript.reduce((sum, t) => sum + t.delay, 0)`. -/
def sumDelays (transcript : List TranscriptLine) : Nat :=
  (transcript.map TranscriptLine.delay).sum

/-- `serviceDescription || 'appointment'` (`undefined` and `""` are falsy). -/
def orDefaultStr (o : Option String) (dflt : String) : String :=
  match o with
  | some s => if s = "" then dflt else s
  | none => dflt

/-- The after-hours test of `simulateProviderCall`:
`hour >= 22 || hour <= 7` on `new Date(requestedSlot).getHours()` (false for
an Invalid Date, whose hour is `NaN`). -/
def isAfterHoursB (requestedSlot : String) : Bool :=
  match hourOf requestedSlot with
  | some h => h ≥ 22 || h ≤ 7
  | none => false

/-- The slot matcher of `simulateProviderCall`: the first available slot
within 60 minutes of the requested time (`NaN` comparisons false). -/
def findNearbySlot (slots : List String) (requestedSlot : String) : Option String :=
  slots.find? fun slot =>
    match timeNum slot, timeNum requestedSlot with
    | some st, some rt => decide (|st - rt| ≤ 60 * 60 * 1000)
    | _, _ => false

/-- The business-hours adjustment of the alternative slot: parse the hour of
`availableSlots[0]` (after stripping a zone suffix) and, when it falls
outside `[8, 18]`, replace the alternative with the same calendar day at
10:00. -/
def adjustAlternative (alternative0 : String) : String :=
  let clean := stripZoneSuffix alternative0
  let altDatePart := datePartOf clean
  let altTimePart := timePartOf clean
  let altHour := parseIntLeading ((splitStr ':' altTimePart).headD "")
  match altHour with
  | some h => if h < 8 || h > 18 then altDatePart ++ "T10:00:00" else alternative0
  | none => alternative0

/-- `simulateProviderCall` (`receptionistSimulator.ts`).  The one source of
nondeterminism, `Math.random()`, is passed in as the explicit draw
`rand ∈ [0, 1)`; the `await delay(...)` suspensions have no observable
effect on the returned `CallResult` and are elided. -/
def simulateProviderCall (ctx : SimCtx) (providerId requestedSlot : String)
    (serviceDescription : Option String) (rand : ℚ) : CallResult :=
  match getProvider ctx providerId with
  | none =>
    { success := false
      providerId := providerId
      providerName := "Unknown"
      message := "Provider not found in directory"
      waitTime := 500
      transcript := [{ role := .receptionist, message := "Unknown provider", delay := 0 }] }
  | some provider =>
    let formattedRequestedSlot := formatSlot requestedSlot
    let personalityType := personalityFor provider.rating
    let personality := PERSONALITIES personalityType
    let scripts := SCRIPTS personalityType
    let transcript : List TranscriptLine :=
      [{ role := .receptionist
         message := strReplace scripts.greeting "{providerName}" provider.name
         delay := 500 },
        { role := .alfred
          message := "Hi, I\x27m calling to book a " ++ orDefaultStr serviceDescription "appointment"
            ++ " for " ++ formattedRequestedSlot ++ "."
          delay := 800 },
        { role := .receptionist
          message := strReplace scripts.requestResponse "{slot}" formattedRequestedSlot
          delay := personality.responseDelay }]
    let availableSlot : Option String :=
      if isAfterHoursB requestedSlot then none
      else findNearbySlot provider.availableSlots requestedSlot
    let isAvailable := availableSlot.isSome && decide (rand < personality.availabilityRate + 0.1)
    match availableSlot, isAvailable with
    | some slot, true =>
      let transcript := transcript ++
        [{ role := .receptionist, message := scripts.available, delay := 1000 },
          { role := .alfred, message := "That sounds perfect. Please confirm the booking."
            delay := 500 },
          { role := .receptionist, message := strReplace scripts.booked "{slot}" (formatSlot slot)
            delay := 800 }]
      { success := true
        providerId := providerId
        providerName := provider.name
        message := strReplace scripts.booked "{slot}" (formatSlot slot)
        bookedSlot := some (replaceFirstZ slot)
        waitTime := sumDelays transcript
        transcript := transcript }
    | _, _ =>
      match provider.availableSlots with
      | slot0 :: _ =>
        let alternative := adjustAlternative (replaceFirstZ slot0)
        let transcript := transcript ++
          [{ role := .receptionist
             message := strReplace scripts.unavailable "{alternative}" (formatSlot alternative)
             delay := 1000 },
            { role := .alfred, message := "Let me check with the user and get back to you."
              delay := 500 }]
        { success := false
          providerId := providerId
          providerName := provider.name
          message := strReplace scripts.unavailable "{alternative}" (formatSlot alternative)
          alternativeSlots := some [alternative]
          waitTime := sumDelays transcript
          transcript := transcript }
      | [] =>
        let transcript := transcript ++
          [{ role := .receptionist, message := scripts.noSlots, delay := 1000 }]
        { success := false
          providerId := providerId
          providerName := provider.name
          message := scripts.noSlots
          waitTime := sumDelays transcript
          transcript := transcript }

/-! ## Swarm orchestrator (`swarmOrchestrator.ts`)

The orchestrator is sequential at batch granularity: every call of a batch
is launched (its status set to `calling` synchronously, in input order) and
the loop only resumes once the whole batch has settled.  The only
nondeterminism per call is which side of the `Promise.race` between the
negotiation and the timeout wins, and — when the negotiation wins — the
`Math.random()` draw inside it; both are supplied by an explicit race oracle
keyed by provider id.  Wall-clock timestamps (`startedAt`, `completedAt`,
`totalDurationMs`) are real-time measurements and are not modelled. -/

/-- `SwarmConfig` (`swarmOrchestrator.ts`). -/
structure SwarmConfig where
  maxConcurrentCalls : Nat
  timeoutMs : Nat
  stopOnFirstSuccess : Bool
  retryFailedCalls : Bool
deriving DecidableEq, Repr

/-- `DEFAULT_CONFIG` (`swarmOrchestrator.ts`). -/
def DEFAULT_CONFIG : SwarmConfig :=
  { maxConcurrentCalls := 5, timeoutMs := 15000, stopOnFirstSuccess := true,
    retryFailedCalls := false }

/-- The status states of `SwarmCallStatus`. -/
inductive CState where
  | pending | calling | success | failed | timeout | cancelled
deriving DecidableEq, Repr

/-- `SwarmCallStatus` (without the wall-clock timestamp fields). -/
structure SwarmCallStatus where
  providerId : String
  providerName : String
  status : CState
  result : Option CallResult := none
deriving DecidableEq, Repr

/-- One `onStatusUpdate` callback notification: a provider's status
transition, in emission order. -/
structure Event where
  providerId : String
  newStatus : CState
deriving DecidableEq, Repr

/-- How the `Promise.race` of one call resolves: the negotiation finishes
first (with its uniform draw), or the `timeoutMs` timer fires first. -/
inductive RaceOutcome where
  | finished (rand : ℚ)
  | timedOut
deriving DecidableEq

/-- The environment of one `executeSwarm` run: simulator context, call
arguments, and the race oracle. -/
structure SwarmEnv where
  ctx : SimCtx
  requestedSlot : String
  serviceDescription : Option String
  race : String → RaceOutcome

/-- `SwarmResult` (without `totalDurationMs`). -/
structure SwarmResult where
  totalProviders : Nat
  successfulBookings : List SwarmCallStatus
  failedCalls : List SwarmCallStatus
  cancelledCalls : List SwarmCallStatus
  bestMatch : Option SwarmCallStatus
  callStatuses : List SwarmCallStatus

/-- The settled state and attached result of one `executeCall`
(`swarmOrchestrator.ts` lines 139–157): a timeout race win leaves the status
`timeout` with no result; otherwise the status follows `result.success` and
the `CallResult` is attached.  (`simulateProviderCall` never rejects, so the
`catch` branch is unreachable.) -/
def callOutcome (env : SwarmEnv) (p : Provider) : CState × Option CallResult :=
  match env.race p.id with
  | .timedOut => (.timeout, none)
  | .finished rand =>
    let r := simulateProviderCall env.ctx p.id env.requestedSlot env.serviceDescription rand
    (if r.success then .success else .failed, some r)

/-- `Map.set` on an existing key: update the entry in place.  (`executeSwarm`
initializes one entry per provider id; ids are unique per the data model, so
updating every matching entry coincides with the `Map` update.) -/
def setStatusById (sts : List SwarmCallStatus) (id : String) (st : CState)
    (r : Option CallResult) : List SwarmCallStatus :=
  sts.map fun s => if s.providerId == id then { s with status := st, result := r } else s

/-- Launch and settle one batch: every member transitions to `calling` (in
input order, synchronously at launch), then each settles to its race
outcome.  Settlement order within a batch is unobservable in the final
state (spec §5); the event log records it in input order. -/
def runBatch (env : SwarmEnv) (batch : List Provider) (sts : List SwarmCallStatus) :
    List SwarmCallStatus × List Event :=
  let stsCalling := batch.foldl (fun acc p => setStatusById acc p.id .calling none) sts
  let stsDone := batch.foldl
    (fun acc p =>
      let o := callOutcome env p
      setStatusById acc p.id o.1 o.2)
    stsCalling
  (stsDone,
    batch.map (fun p => ⟨p.id, .calling⟩) ++ batch.map fun p => ⟨p.id, (callOutcome env p).1⟩)

/-- Did some call of the batch settle as `success`? -/
def batchHasSuccess (env : SwarmEnv) (batch : List Provider) : Bool :=
  batch.any fun p => (callOutcome env p).1 == .success

/-- The per-entry effect of `cancelRemainingCalls`: a pending status becomes
`cancelled`, anything else is left alone. -/
def cancelWrite (s : SwarmCallStatus) : SwarmCallStatus :=
  if s.status == .pending then { s with status := .cancelled } else s

/-- `cancelRemainingCalls`: every status still `pending` becomes
`cancelled` (one callback notification each). -/
def cancelPending (sts : List SwarmCallStatus) : List SwarmCallStatus × List Event :=
  (sts.map cancelWrite,
    (sts.filter fun s => s.status == .pending).map fun s => ⟨s.providerId, .cancelled⟩)

/-- The batch loop of `executeSwarm` (lines 86–108): process batches in
order; after a batch settles, if `stopOnFirstSuccess` is set and the batch
contained a success, cancel all pending statuses and stop. -/
def runBatches (env : SwarmEnv) (stop : Bool) :
    List (List Provider) → List SwarmCallStatus → List SwarmCallStatus × List Event
  | [], sts => (sts, [])
  | batch :: rest, sts =>
    let r1 := runBatch env batch sts
    if stop && batchHasSuccess env batch then
      let r2 := cancelPending r1.1
      (r2.1, r1.2 ++ r2.2)
    else
      let r3 := runBatches env stop rest r1.1
      (r3.1, r1.2 ++ r3.2)

/-- Chunking loop with an explicit fuel bound (`fuel ≥ items.length` makes it
total); structural recursion so concrete runs evaluate in the kernel. -/
def createBatchesGo (k : Nat) : Nat → List α → List (List α)
  | _, [] => []
  | 0, _ :: _ => []
  | fuel + 1, x :: xs => (x :: xs).take k :: createBatchesGo k fuel ((x :: xs).drop k)

/-- `createBatches`: consecutive chunks of size `batchSize`, preserving
order.  (The JS loop does not terminate for `batchSize = 0`; that case is
modelled as no batches and excluded by hypothesis where it matters.) -/
def createBatches (items : List α) (batchSize : Nat) : List (List α) :=
  match batchSize with
  | 0 => []
  | _ + 1 => createBatchesGo batchSize items.length items

/-- The truthiness test `s.result?.bookedSlot` (both `undefined` and the
empty string are falsy). -/
def hasBooked (s : SwarmCallStatus) : Bool :=
  match s.result with
  | some r => match r.bookedSlot with
    | some b => b ≠ ""
    | none => false
  | none => false

/-- `new Date(s.result!.bookedSlot!).getTime()` of a status. -/
def bookedTime (s : SwarmCallStatus) : Option Int :=
  match s.result with
  | some r => match r.bookedSlot with
    | some b => timeNum b
    | none => none
  | none => none

/-- `getProvider(id)?.rating || 0`: rating of the looked-up provider, `0`
when the lookup fails. -/
def ratingOf (ctx : SimCtx) (id : String) : ℚ :=
  match getProvider ctx id with
  | some p => p.rating
  | none => 0

/-- The `selectBestMatch` comparator as a strict-precedence relation:
`a` strictly precedes `b` iff `a`'s booked time is earlier, or equal with a
strictly higher provider rating.  (With an unparsable booked slot the JS
comparator computes with `NaN` and the sort order is unspecified; the
theorems assume parsable booked slots and this relation returns `false`
there.) -/
def bmBef (ctx : SimCtx) (a b : SwarmCallStatus) : Bool :=
  match bookedTime a, bookedTime b with
  | some ta, some tb =>
    if ta ≠ tb then ta < tb
    else ratingOf ctx a.providerId > ratingOf ctx b.providerId
  | _, _ => false

/-- The filter of `selectBestMatch`:
`s.status === 'success' && s.result?.bookedSlot`. -/
def isSuccessfulWithSlot (s : SwarmCallStatus) : Bool :=
  s.status == .success && hasBooked s

/-- `selectBestMatch` (`swarmOrchestrator.ts` lines 196–213): among the
`success` statuses with a (truthy) booked slot, the head of the stable sort
by earliest slot then highest rating. -/
def selectBestMatch (ctx : SimCtx) (statuses : List SwarmCallStatus) :
    Option SwarmCallStatus :=
  let successful := statuses.filter isSuccessfulWithSlot
  match stableSort (bmBef ctx) successful with
  | [] => none
  | b :: _ => some b

/-- `executeSwarm` (`swarmOrchestrator.ts` lines 64–122), returning the
aggregated result and the `onStatusUpdate` event log.  The status map is
keyed by provider id, so (per the data-model uniqueness of ids) it is
embedded as the id-indexed list of statuses in input order. -/
def executeSwarm (env : SwarmEnv) (cfg : SwarmConfig) (providers : List Provider) :
    SwarmResult × List Event :=
  let sts0 : List SwarmCallStatus := providers.map fun p =>
    { providerId := p.id, providerName := p.name, status := .pending }
  let batches := createBatches providers cfg.maxConcurrentCalls
  let r := runBatches env cfg.stopOnFirstSuccess batches sts0
  ({ totalProviders := providers.length
     successfulBookings := r.1.filter fun s => s.status == .success
     failedCalls := r.1.filter fun s => s.status == .failed || s.status == .timeout
     cancelledCalls := r.1.filter fun s => s.status == .cancelled
     bestMatch := selectBestMatch env.ctx r.1
     callStatuses := r.1 }, r.2)

/-! ## Generic facts about the stable sort -/

theorem stableInsert_perm (bef : α → α → Bool) (x : α) :
    ∀ l : List α, (stableInsert bef x l).Perm (x :: l)
  | [] => List.Perm.refl _
  | y :: ys => by
    unfold stableInsert
    split
    · exact ((stableInsert_perm bef x ys).cons y).trans (List.Perm.swap x y ys)
    · exact List.Perm.refl _

theorem stableSort_perm (bef : α → α → Bool) :
    ∀ l : List α, (stableSort bef l).Perm l
  | [] => List.Perm.refl _
  | x :: xs =>
    (stableInsert_perm bef x (stableSort bef xs)).trans ((stableSort_perm bef xs).cons x)

theorem mem_stableInsert (bef : α → α → Bool) (x : α) (l : List α) (z : α) :
    z ∈ stableInsert bef x l ↔ z = x ∨ z ∈ l := by
  constructor
  · intro hz
    have := (stableInsert_perm bef x l).mem_iff.mp hz
    simpa using this
  · intro hz
    apply (stableInsert_perm bef x l).mem_iff.mpr
    simpa using hz

theorem stableInsert_pairwise (bef : α → α → Bool) (R : α → α → Prop)
    (hbR : ∀ a b, bef a b = true → R a b) (hnbR : ∀ a b, bef a b = false → R b a)
    (htrans : ∀ a b c, R a b → R b c → R a c) (x : α) :
    ∀ l : List α, l.Pairwise R → (stableInsert bef x l).Pairwise R
  | [], _ => List.pairwise_singleton R x
  | y :: ys, hp => by
    unfold stableInsert
    rcases List.pairwise_cons.mp hp with ⟨hy, hys⟩
    split
    · rename_i hyx
      refine List.pairwise_cons.mpr ⟨?_, stableInsert_pairwise bef R hbR hnbR htrans x ys hys⟩
      intro z hz
      rcases (mem_stableInsert bef x ys z).mp hz with rfl | hz
      · exact hbR _ _ hyx
      · exact hy z hz
    · rename_i hyx
      have hxy : R x y := hnbR _ _ (Bool.eq_false_iff.mpr hyx)
      refine List.pairwise_cons.mpr ⟨?_, hp⟩
      intro z hz
      rcases List.mem_cons.mp hz with rfl | hz
      · exact hxy
      · exact htrans _ _ _ hxy (hy z hz)

theorem stableSort_pairwise (bef : α → α → Bool) (R : α → α → Prop)
    (hbR : ∀ a b, bef a b = true → R a b) (hnbR : ∀ a b, bef a b = false → R b a)
    (htrans : ∀ a b c, R a b → R b c → R a c) :
    ∀ l : List α, (stableSort bef l).Pairwise R
  | [] => List.Pairwise.nil
  | x :: xs =>
    stableInsert_pairwise bef R hbR hnbR htrans x (stableSort bef xs)
      (stableSort_pairwise bef R hbR hnbR htrans xs)

theorem stableInsert_filter_pos (bef : α → α → Bool) (P : α → Bool) (x : α)
    (hx : P x = true) (hpre : ∀ y, bef y x = true → P y = false) :
    ∀ l : List α, (stableInsert bef x l).filter P = x :: l.filter P
  | [] => by simp [stableInsert, hx]
  | y :: ys => by
    unfold stableInsert
    split
    · rename_i hyx
      rw [List.filter_cons, List.filter_cons]
      rw [hpre y hyx]
      exact stableInsert_filter_pos bef P x hx hpre ys
    · simp [List.filter_cons, hx]

theorem stableInsert_filter_neg (bef : α → α → Bool) (P : α → Bool) (x : α)
    (hx : P x = false) :
    ∀ l : List α, (stableInsert bef x l).filter P = l.filter P
  | [] => by simp [stableInsert, hx]
  | y :: ys => by
    unfold stableInsert
    split
    · rw [List.filter_cons, List.filter_cons]
      rw [stableInsert_filter_neg bef P x hx ys]
    · simp [List.filter_cons, hx]

/-- Stability, phrased through filters: for any class of elements none of
which strictly precedes another and such that anything strictly preceding a
class member is outside the class, sorting does not disturb the class's
subsequence. -/
theorem stableSort_filter (bef : α → α → Bool) (P : α → Bool)
    (hcl : ∀ x y, P x = true → bef y x = true → P y = false) :
    ∀ l : List α, (stableSort bef l).filter P = l.filter P
  | [] => rfl
  | x :: xs => by
    unfold stableSort
    rcases hPx : P x with hf | ht
    · rw [stableInsert_filter_neg bef P x hPx, List.filter_cons, hPx]
      · exact stableSort_filter bef P hcl xs
    · rw [stableInsert_filter_pos bef P x hPx (fun y hy => hcl x y hPx hy),
        List.filter_cons, hPx]
      rw [stableSort_filter bef P hcl xs]
      simp

/-! ## Claims about the ranker -/

/-- The scoring formula as the spec states it (§4.1): rating times
multiplier, plus the clamped distance score, plus the slot-match bonus when
any available slot falls within the intent's preferred range. -/
def specScore (p : Provider) (intent : AppointmentIntent) (w : RankingWeights) : ℚ :=
  p.rating * w.ratingMultiplier
    + max 0 (w.maxDistanceScore - p.distanceMiles * w.distanceDecayPerMile)
    + (if p.availableSlots.any
          (fun slot => slotInWindow slot intent.preferredTimeRange.start
            intent.preferredTimeRange.stop)
        then w.slotMatchBonus else 0)

theorem filter_length_pos_iff_any (f : α → Bool) (l : List α) :
    0 < (l.filter f).length ↔ l.any f = true := by
  rw [List.length_pos, List.any_eq_true]
  constructor
  · intro h
    rcases List.exists_mem_of_ne_nil _ h with ⟨x, hx⟩
    exact ⟨x, List.mem_of_mem_filter hx, List.of_mem_filter hx⟩
  · rintro ⟨x, hx, hfx⟩
    intro hnil
    exact absurd (hnil ▸ List.mem_filter.mpr ⟨hx, hfx⟩) (List.not_mem_nil x)

/-- A sample intent: a dentist appointment on 2025-06-02 between 09:00 and
17:00 local time. -/
def sampleIntent : AppointmentIntent :=
  { userId := "u1"
    serviceType := "dentist"
    preferredTimeRange := { start := "2025-06-02T09:00:00", stop := "2025-06-02T17:00:00" }
    maxDistanceMiles := 10
    status := .searching }

/-- A provider with rating 5.0, distance 0 miles and one slot inside the
sample intent's window. -/
def perfectProvider : Provider :=
  { id := "p100"
    name := "Perfect Dental"
    phone := "+1-617-555-0100"
    category := "dentist"
    rating := 5
    address := "1 Main St, Boston, MA"
    distanceMiles := 0
    availableSlots := ["2025-06-02T10:00:00"] }

/-- C2 — `finalScore` equals the spec's scoring formula; in particular a
provider with rating 5.0, distance 0 miles and a slot inside the intent
window scores exactly 100 under the default weights. -/
theorem claim_C2 :
    (∀ (p : Provider) (intent : AppointmentIntent) (w : RankingWeights),
      (scoreProvider p intent w).finalScore = specScore p intent w) ∧
    (scoreProvider perfectProvider sampleIntent DEFAULT_WEIGHTS).finalScore = 100 := by
  constructor
  · intro p intent w
    unfold scoreProvider specScore
    simp only
    congr 1
    by_cases h : p.availableSlots.any
        (fun slot => slotInWindow slot intent.preferredTimeRange.start
          intent.preferredTimeRange.stop) = true
    · rw [if_pos ((filter_length_pos_iff_any _ _).mpr h), if_pos h]
    · rw [if_neg, if_neg h]
      intro hpos
      exact h ((filter_length_pos_iff_any _ _).mp hpos)
  · with_unfolding_all decide

/-- C3 — `rankProviders` returns the scored providers in descending
`finalScore` order, the sort is stable (providers of equal score keep their
input order: the subsequence at any given score is exactly the input
subsequence at that score), and an empty input yields an empty output.  The
embedding is a pure function, so the output is determined by the inputs
alone (determinism). -/
theorem claim_C3 :
    ∀ (providers : List Provider) (intent : AppointmentIntent) (w : RankingWeights),
      (rankProviders providers intent w).Pairwise (fun a b => a.finalScore ≥ b.finalScore) ∧
      (∀ q : ℚ, (rankProviders providers intent w).filter (fun x => x.finalScore == q)
        = (providers.map fun p => scoreProvider p intent w).filter
            (fun x => x.finalScore == q)) ∧
      rankProviders [] intent w = [] := by
  intro providers intent w
  refine ⟨?_, ?_, rfl⟩
  · exact stableSort_pairwise scoreBef (fun a b => a.finalScore ≥ b.finalScore)
      (fun a b h => le_of_lt (by simpa [scoreBef] using h))
      (fun a b h => le_of_not_lt (by simpa [scoreBef] using h))
      (fun a b c hab hbc => le_trans hbc hab) _
  · intro q
    apply stableSort_filter
    intro x y hx hy
    have hx' : x.finalScore = q := by simpa using hx
    have hy' : y.finalScore > x.finalScore := by simpa [scoreBef] using hy
    simp [hx' ▸ ne_of_gt hy']

/-- C10 — the ranker does not modify its inputs (it is embedded as a pure
function of them) and each `RankedProvider` is a fresh record copying the
provider's fields (the TS spread) together with `finalScore` and
`matchingSlots`; the ranked output carries exactly the input providers,
reordered. -/
theorem claim_C10 :
    (∀ (p : Provider) (intent : AppointmentIntent) (w : RankingWeights),
      (scoreProvider p intent w).provider = p) ∧
    (∀ (providers : List Provider) (intent : AppointmentIntent) (w : RankingWeights),
      ((rankProviders providers intent w).map RankedProvider.provider).Perm providers) := by
  constructor
  · intro p intent w
    rfl
  · intro providers intent w
    have h1 := (stableSort_perm scoreBef
      (providers.map fun p => scoreProvider p intent w)).map RankedProvider.provider
    unfold rankProviders
    refine h1.trans ?_
    rw [List.map_map]
    have : (RankedProvider.provider ∘ fun p => scoreProvider p intent w) = id := rfl
    rw [this, List.map_id]

/-! ## Claims about the negotiation simulator -/

/-- C6 — a requested slot whose local hour falls in the after-hours window
`[22:00, 07:00]` (both bounds included) can never be booked: the call
returns `success = false` for every provider and every random draw. -/
theorem claim_C6 (ctx : SimCtx) (providerId requestedSlot : String)
    (serviceDescription : Option String) (rand : ℚ) (h : Nat)
    (hparse : hourOf requestedSlot = some h) (hwin : 22 ≤ h ∨ h ≤ 7) :
    (simulateProviderCall ctx providerId requestedSlot serviceDescription rand).success
      = false := by
  have hah : isAfterHoursB requestedSlot = true := by
    unfold isAfterHoursB
    rw [hparse]
    rcases hwin with h1 | h1
    · simp only [Bool.or_eq_true, decide_eq_true_eq]
      exact Or.inl h1
    · simp only [Bool.or_eq_true, decide_eq_true_eq]
      exact Or.inr h1
  rcases hgp : getProvider ctx providerId with _ | provider
  · simp only [simulateProviderCall, hgp]
  · simp only [simulateProviderCall, hgp, hah, if_true, Option.isSome_none, Bool.false_and]
    rcases provider.availableSlots with _ | ⟨s0, rest⟩
    · simp
    · simp

/-- A provider whose only slot is at 23:00 local, used to witness the
after-hours rejection against matching-time availability. -/
def demoProvider : Provider :=
  { id := "p1"
    name := "Night Owl Dental"
    phone := "+1-617-555-0001"
    category := "dentist"
    rating := 4.8
    address := "2 Main St, Boston, MA"
    distanceMiles := 1
    availableSlots := ["2025-06-02T23:00:00"] }

/-- A directory containing only `demoProvider`. -/
def demoCtx : SimCtx :=
  { directory := [demoProvider], todayStr := "2025-06-02", tomorrowStr := "2025-06-03" }

theorem claim_C6_witness :
    hourOf "2025-06-02T23:00:00" = some 23 ∧
    (simulateProviderCall demoCtx "p1" "2025-06-02T23:00:00" none 0).success = false :=
  ⟨by decide,
    claim_C6 demoCtx "p1" "2025-06-02T23:00:00" none 0 23 (by decide) (Or.inl (by decide))⟩

/-- An empty directory; the id `ghost` is unknown (and not synthetic). -/
def ghostCtx : SimCtx :=
  { directory := [], todayStr := "2025-06-02", tomorrowStr := "2025-06-03" }

/-- C7 counterexample — for an unknown provider id the returned `waitTime`
is the literal 500 while the single transcript line carries delay 0, so
`waitTime` differs from the sum of the transcript delays. -/
theorem claim_C7_counterexample :
    (simulateProviderCall ghostCtx "ghost" "2025-06-02T10:00:00" none 0).waitTime = 500 ∧
    sumDelays (simulateProviderCall ghostCtx "ghost" "2025-06-02T10:00:00" none 0).transcript
      = 0 ∧
    (simulateProviderCall ghostCtx "ghost" "2025-06-02T10:00:00" none 0).waitTime
      ≠ sumDelays
        (simulateProviderCall ghostCtx "ghost" "2025-06-02T10:00:00" none 0).transcript := by
  refine ⟨rfl, rfl, ?_⟩
  decide

/-- C7 (amended) — whenever the provider id resolves, `waitTime` equals the
sum of the delays of all transcript lines of the call; in the
unknown-provider case `waitTime` is the constant 500 while the single
transcript line has delay 0. -/
theorem claim_C7_amended (ctx : SimCtx) (providerId requestedSlot : String)
    (sd : Option String) (rand : ℚ) :
    ((getProvider ctx providerId).isSome = true →
      (simulateProviderCall ctx providerId requestedSlot sd rand).waitTime
        = sumDelays (simulateProviderCall ctx providerId requestedSlot sd rand).transcript) ∧
    (getProvider ctx providerId = none →
      (simulateProviderCall ctx providerId requestedSlot sd rand).waitTime = 500 ∧
      (simulateProviderCall ctx providerId requestedSlot sd rand).transcript
        = [{ role := .receptionist, message := "Unknown provider", delay := 0 }]) := by
  rcases hgp : getProvider ctx providerId with _ | provider
  · refine ⟨?_, ?_⟩
    · intro hs
      simp at hs
    · intro _
      simp [simulateProviderCall, hgp]
  · refine ⟨?_, ?_⟩
    · intro _
      simp only [simulateProviderCall, hgp]
      split
      · rfl
      · split
        · rfl
        · rfl
    · intro hc
      simp at hc

theorem claim_C7_witness :
    (getProvider demoCtx "p1").isSome = true ∧
    (simulateProviderCall demoCtx "p1" "2025-06-02T10:00:00" none 0).waitTime
      = sumDelays (simulateProviderCall demoCtx "p1" "2025-06-02T10:00:00" none 0).transcript :=
  ⟨by decide, (claim_C7_amended demoCtx "p1" "2025-06-02T10:00:00" none 0).1 (by decide)⟩

/-- C8 counterexample — for an unknown provider id the message is the
string "Provider not found in directory", not "Provider not found" as the
claim states (the other parts of the claim hold: `success = false` and a
single transcript line). -/
theorem claim_C8_counterexample :
    (simulateProviderCall ghostCtx "ghost" "2025-06-02T10:00:00" none 0).message
      = "Provider not found in directory" ∧
    (simulateProviderCall ghostCtx "ghost" "2025-06-02T10:00:00" none 0).message
      ≠ "Provider not found" ∧
    (simulateProviderCall ghostCtx "ghost" "2025-06-02T10:00:00" none 0).success = false ∧
    (simulateProviderCall ghostCtx "ghost" "2025-06-02T10:00:00" none 0).transcript.length
      = 1 := by
  refine ⟨rfl, ?_, rfl, rfl⟩
  decide

/-- C8 (amended) — for every unknown provider id the call resolves the
error locally (the embedding is a total function, mirroring that
`simulateProviderCall` never throws) and returns `success = false`, the
message "Provider not found in directory", and exactly one transcript
line. -/
theorem claim_C8_amended (ctx : SimCtx) (providerId requestedSlot : String)
    (sd : Option String) (rand : ℚ) (h : getProvider ctx providerId = none) :
    (simulateProviderCall ctx providerId requestedSlot sd rand).success = false ∧
    (simulateProviderCall ctx providerId requestedSlot sd rand).message
      = "Provider not found in directory" ∧
    (simulateProviderCall ctx providerId requestedSlot sd rand).transcript.length = 1 := by
  simp [simulateProviderCall, h]

theorem claim_C8_witness :
    getProvider ghostCtx "ghost" = none ∧
    (simulateProviderCall ghostCtx "ghost" "2025-06-02T10:00:00" none 0).success = false ∧
    (simulateProviderCall ghostCtx "ghost" "2025-06-02T10:00:00" none 0).message
      = "Provider not found in directory" ∧
    (simulateProviderCall ghostCtx "ghost" "2025-06-02T10:00:00" none 0).transcript.length
      = 1 :=
  ⟨by decide, claim_C8_amended ghostCtx "ghost" "2025-06-02T10:00:00" none 0 (by decide)⟩

theorem removeFirstZList_of_not_mem : ∀ l : List Char, 'Z' ∉ l → removeFirstZList l = l
  | [], _ => rfl
  | c :: cs, h => by
    unfold removeFirstZList
    have hc : c ≠ 'Z' := fun hcz => h (hcz ▸ List.mem_cons_self c cs)
    rw [if_neg hc, removeFirstZList_of_not_mem cs fun hm => h (List.mem_cons_of_mem c hm)]

theorem replaceFirstZ_of_not_mem (s : String) (h : 'Z' ∉ s.data) : replaceFirstZ s = s := by
  unfold replaceFirstZ
  rw [removeFirstZList_of_not_mem s.data h]
  exact String.asString_toList s

/-- A provider whose only slot is at 22:00 local: a failed negotiation
offers the business-hours-clamped alternative 10:00, which is not among the
provider's available slots. -/
def lateNightProvider : Provider :=
  { id := "alt1"
    name := "Late Night Garage"
    phone := "+1-617-555-0002"
    category := "car_repair"
    rating := 5
    address := "3 Main St, Boston, MA"
    distanceMiles := 1
    availableSlots := ["2025-06-02T22:00:00"] }

/-- A directory containing only `lateNightProvider`. -/
def altCtx : SimCtx :=
  { directory := [lateNightProvider], todayStr := "2025-06-02", tomorrowStr := "2025-06-03" }

/-- C1 counterexample — requesting noon from the late-night provider fails
(its only slot is 10 hours away), and the offered alternative slot
`2025-06-02T10:00:00` is not a member of the provider's `availableSlots`:
the alternative was clamped into business hours. -/
theorem claim_C1_counterexample :
    getProvider altCtx "alt1" = some lateNightProvider ∧
    (simulateProviderCall altCtx "alt1" "2025-06-02T12:00:00" none 0).success = false ∧
    (simulateProviderCall altCtx "alt1" "2025-06-02T12:00:00" none 0).alternativeSlots
      = some ["2025-06-02T10:00:00"] ∧
    "2025-06-02T10:00:00" ∉ lateNightProvider.availableSlots := by
  refine ⟨by decide, ?_, ?_, by decide⟩
  · with_unfolding_all decide
  · with_unfolding_all decide

/-- C1 (amended) — for a resolved provider whose slot strings are Z-free
(the spec's local-time convention), a successful call books a member of the
provider's `availableSlots`; a failed call's alternative list contains
either `availableSlots[0]` itself or — when that slot's local hour is
outside business hours — its calendar day at 10:00:00, which need not be a
member of `availableSlots`. -/
theorem claim_C1_amended (ctx : SimCtx) (pid slot : String) (sd : Option String) (rand : ℚ)
    (provider : Provider) (hgp : getProvider ctx pid = some provider)
    (hz : ∀ s ∈ provider.availableSlots, 'Z' ∉ s.data) :
    ((simulateProviderCall ctx pid slot sd rand).success = true →
      ∃ b ∈ provider.availableSlots,
        (simulateProviderCall ctx pid slot sd rand).bookedSlot = some b) ∧
    (∀ alts, (simulateProviderCall ctx pid slot sd rand).alternativeSlots = some alts →
      ∀ a ∈ alts,
        a ∈ provider.availableSlots ∨
        ∃ s0, provider.availableSlots.head? = some s0 ∧
          a = datePartOf (stripZoneSuffix s0) ++ "T10:00:00") := by
  simp only [simulateProviderCall, hgp]
  split
  · rename_i slotA heq _
    have hfind : findNearbySlot provider.availableSlots slot = some slotA := by
      by_cases hafter : isAfterHoursB slot = true
      · rw [if_pos hafter] at heq
        cases heq
      · rw [if_neg hafter] at heq
        exact heq
    have hmem : slotA ∈ provider.availableSlots :=
      List.mem_of_find?_eq_some hfind
    have hzA : replaceFirstZ slotA = slotA := replaceFirstZ_of_not_mem slotA (hz slotA hmem)
    refine ⟨fun _ => ⟨slotA, hmem, by simp [hzA]⟩, ?_⟩
    intro alts halts
    simp at halts
  · split
    · rename_i s0 rest hslots
      have hs0 : s0 ∈ provider.availableSlots := by
        rw [hslots]
        exact List.mem_cons_self _ _
      have hzs0 : replaceFirstZ s0 = s0 := replaceFirstZ_of_not_mem s0 (hz s0 hs0)
      refine ⟨fun hsucc => by simp at hsucc, ?_⟩
      intro alts halts
      have halts' : alts = [adjustAlternative (replaceFirstZ s0)] := by
        simpa using halts.symm
      intro a ha
      rw [halts'] at ha
      have ha' : a = adjustAlternative s0 := by
        rw [hzs0] at ha
        simpa using ha
      simp only [adjustAlternative] at ha'
      rcases hh : parseIntLeading ((splitStr ':' (timePartOf (stripZoneSuffix s0))).headD "")
        with _ | hr
      · rw [hh] at ha'
        exact Or.inl (ha' ▸ hs0)
      · rw [hh] at ha'
        by_cases hout : hr < 8 ∨ hr > 18
        · right
          refine ⟨s0, by rw [hslots]; rfl, ?_⟩
          have hcond : (decide (hr < 8) || decide (hr > 18)) = true := by
            simp only [Bool.or_eq_true, decide_eq_true_eq]
            exact hout
          rw [ha']
          simp [hcond]
        · left
          have hcond : (decide (hr < 8) || decide (hr > 18)) = false := by
            simp only [Bool.or_eq_false_iff, decide_eq_false_iff_not]
            exact ⟨fun h1 => hout (Or.inl h1), fun h2 => hout (Or.inr h2)⟩
          rw [ha']
          simp only [hcond]
          simpa using hs0
    · refine ⟨fun hsucc => by simp at hsucc, ?_⟩
      intro alts halts
      simp at halts

theorem claim_C1_witness :
    "2025-06-02T10:00:00" ∈ lateNightProvider.availableSlots ∨
    ∃ s0, lateNightProvider.availableSlots.head? = some s0 ∧
      "2025-06-02T10:00:00" = datePartOf (stripZoneSuffix s0) ++ "T10:00:00" :=
  (claim_C1_amended altCtx "alt1" "2025-06-02T12:00:00" none 0 lateNightProvider (by decide)
      (by decide)).2 ["2025-06-02T10:00:00"] (by with_unfolding_all decide)
    "2025-06-02T10:00:00" (by decide)

/-! ## Claims about best-match selection -/

/-- The head of the stable sort, characterized: it is an element no other
element strictly precedes, and it strictly precedes everything in front of
its own position (so among minimal elements it is the first in input
order).  The precedence hypotheses (asymmetry and negative transitivity)
are only required on the list's elements. -/
theorem stableSort_head_spec (bef : α → α → Bool) :
    ∀ l : List α,
      (∀ a ∈ l, ∀ b ∈ l, bef a b = true → bef b a = false) →
      (∀ a ∈ l, ∀ b ∈ l, ∀ c ∈ l, bef a b = false → bef b c = false → bef a c = false) →
      match stableSort bef l with
      | [] => l = []
      | b :: _ => ∃ pre post, l = pre ++ b :: post ∧ (∀ y ∈ pre, bef b y = true) ∧
          ∀ y ∈ l, bef y b = false
  | [], _, _ => rfl
  | x :: xs, hasym, hntr => by
    have hxmem : x ∈ x :: xs := List.mem_cons_self _ _
    have hxx : bef x x = false := by
      by_cases hxx' : bef x x = true
      · exact hasym x hxmem x hxmem hxx'
      · exact Bool.eq_false_iff.mpr hxx'
    have ih := stableSort_head_spec bef xs
      (fun a ha b hb => hasym a (List.mem_cons_of_mem x ha) b (List.mem_cons_of_mem x hb))
      (fun a ha b hb c hc => hntr a (List.mem_cons_of_mem x ha) b (List.mem_cons_of_mem x hb)
        c (List.mem_cons_of_mem x hc))
    show match stableInsert bef x (stableSort bef xs) with
      | [] => _
      | b :: _ => _
    rcases hs : stableSort bef xs with _ | ⟨b, rest⟩
    · rw [hs] at ih
      have hxs : xs = [] := ih
      subst hxs
      exact ⟨[], [], rfl, by simp, by
        intro y hy
        rcases List.mem_singleton.mp hy with rfl
        exact hxx⟩
    · rw [hs] at ih
      rcases ih with ⟨pre, post, hdec, hpre, hmin⟩
      have hbxs : b ∈ xs := by
        rw [hdec]
        exact List.mem_append_right pre (List.mem_cons_self _ _)
      have hbmem : b ∈ x :: xs := List.mem_cons_of_mem x hbxs
      unfold stableInsert
      by_cases hbx : bef b x = true
      · rw [if_pos hbx]
        refine ⟨x :: pre, post, by rw [hdec, List.cons_append], ?_, ?_⟩
        · intro y hy
          rcases List.mem_cons.mp hy with rfl | hy
          · exact hbx
          · exact hpre y hy
        · intro y hy
          rcases List.mem_cons.mp hy with rfl | hy
          · exact hasym b hbmem y hxmem hbx
          · exact hmin y hy
      · have hbx' : bef b x = false := Bool.eq_false_iff.mpr hbx
        rw [if_neg hbx]
        refine ⟨[], xs, by simp, by simp, ?_⟩
        intro y hy
        rcases List.mem_cons.mp hy with rfl | hy
        · exact hxx
        · exact hntr y (List.mem_cons_of_mem x hy) b hbmem x hxmem (hmin y hy) hbx'

/-- The spec's best-match precedence (§4.3 step 4): an earlier `bookedSlot`,
or an identical `bookedSlot` from a provider with a strictly higher
rating. -/
def specPrecedes (ctx : SimCtx) (a b : SwarmCallStatus) : Prop :=
  ∃ ta tb, bookedTime a = some ta ∧ bookedTime b = some tb ∧
    (ta < tb ∨ (ta = tb ∧ ratingOf ctx a.providerId > ratingOf ctx b.providerId))

theorem bmBef_eq_of_times (ctx : SimCtx) (a b : SwarmCallStatus) (ta tb : Int)
    (hta : bookedTime a = some ta) (htb : bookedTime b = some tb) :
    bmBef ctx a b
      = if ta ≠ tb then decide (ta < tb)
        else decide (ratingOf ctx a.providerId > ratingOf ctx b.providerId) := by
  unfold bmBef
  rw [hta, htb]

theorem bmBef_iff_specPrecedes (ctx : SimCtx) (a b : SwarmCallStatus)
    (ha : (bookedTime a).isSome = true) (hb : (bookedTime b).isSome = true) :
    bmBef ctx a b = true ↔ specPrecedes ctx a b := by
  rcases Option.isSome_iff_exists.mp ha with ⟨ta, hta⟩
  rcases Option.isSome_iff_exists.mp hb with ⟨tb, htb⟩
  unfold specPrecedes
  rw [bmBef_eq_of_times ctx a b ta tb hta htb]
  constructor
  · intro h
    refine ⟨ta, tb, hta, htb, ?_⟩
    by_cases hne : ta ≠ tb
    · rw [if_pos hne] at h
      exact Or.inl (of_decide_eq_true h)
    · rw [if_neg hne] at h
      exact Or.inr ⟨not_not.mp hne, of_decide_eq_true h⟩
  · rintro ⟨ta', tb', hta', htb', hcase⟩
    obtain rfl : ta' = ta := by injection hta'.symm.trans hta
    obtain rfl : tb' = tb := by injection htb'.symm.trans htb
    rcases hcase with hlt | ⟨heq, hr⟩
    · rw [if_pos (ne_of_lt hlt)]
      exact decide_eq_true hlt
    · rw [if_neg (not_not.mpr heq)]
      exact decide_eq_true hr

theorem bmBef_asymm (ctx : SimCtx) (a b : SwarmCallStatus)
    (ha : (bookedTime a).isSome = true) (hb : (bookedTime b).isSome = true) :
    bmBef ctx a b = true → bmBef ctx b a = false := by
  rcases Option.isSome_iff_exists.mp ha with ⟨ta, hta⟩
  rcases Option.isSome_iff_exists.mp hb with ⟨tb, htb⟩
  rw [bmBef_eq_of_times ctx a b ta tb hta htb, bmBef_eq_of_times ctx b a tb ta htb hta]
  intro h
  by_cases hne : ta ≠ tb
  · rw [if_pos hne] at h
    rw [if_pos (Ne.symm hne)]
    exact decide_eq_false (lt_asymm (of_decide_eq_true h))
  · obtain rfl : ta = tb := not_not.mp hne
    rw [if_neg hne] at h
    rw [if_neg (not_not.mpr rfl)]
    exact decide_eq_false (lt_asymm (of_decide_eq_true h))

theorem bmBef_negtrans (ctx : SimCtx) (a b c : SwarmCallStatus)
    (ha : (bookedTime a).isSome = true) (hb : (bookedTime b).isSome = true)
    (hc : (bookedTime c).isSome = true) :
    bmBef ctx a b = false → bmBef ctx b c = false → bmBef ctx a c = false := by
  rcases Option.isSome_iff_exists.mp ha with ⟨ta, hta⟩
  rcases Option.isSome_iff_exists.mp hb with ⟨tb, htb⟩
  rcases Option.isSome_iff_exists.mp hc with ⟨tc, htc⟩
  intro hab hbc
  rw [bmBef_eq_of_times ctx a b ta tb hta htb] at hab
  rw [bmBef_eq_of_times ctx b c tb tc htb htc] at hbc
  rw [bmBef_eq_of_times ctx a c ta tc hta htc]
  have hba : tb ≤ ta ∧ (ta = tb → ratingOf ctx a.providerId ≤ ratingOf ctx b.providerId) := by
    by_cases hne : ta ≠ tb
    · rw [if_pos hne] at hab
      exact ⟨le_of_not_lt (of_decide_eq_false hab), fun he => absurd he hne⟩
    · obtain rfl : ta = tb := not_not.mp hne
      rw [if_neg hne] at hab
      exact ⟨le_refl _, fun _ => le_of_not_lt (of_decide_eq_false hab)⟩
  have hcb : tc ≤ tb ∧ (tb = tc → ratingOf ctx b.providerId ≤ ratingOf ctx c.providerId) := by
    by_cases hne : tb ≠ tc
    · rw [if_pos hne] at hbc
      exact ⟨le_of_not_lt (of_decide_eq_false hbc), fun he => absurd he hne⟩
    · obtain rfl : tb = tc := not_not.mp hne
      rw [if_neg hne] at hbc
      exact ⟨le_refl _, fun _ => le_of_not_lt (of_decide_eq_false hbc)⟩
  by_cases hne : ta ≠ tc
  · rw [if_pos hne]
    apply decide_eq_false
    exact not_lt.mpr (le_trans hcb.1 hba.1)
  · obtain rfl : ta = tc := not_not.mp hne
    rw [if_neg hne]
    apply decide_eq_false
    have hts : tb = ta := le_antisymm hba.1 hcb.1
    have hr1 : ratingOf ctx a.providerId ≤ ratingOf ctx b.providerId := hba.2 hts.symm
    have hr2 : ratingOf ctx b.providerId ≤ ratingOf ctx c.providerId := hcb.2 hts
    exact not_lt.mpr (le_trans hr1 hr2)

/-- C4 — when every success status carries a (truthy, parsable) booked
slot — which is what `executeSwarm` produces, since a success status always
attaches the successful `CallResult` — `selectBestMatch` returns `none`
exactly when no status is a success; otherwise it returns a success status
that no other success status strictly precedes (earlier `bookedSlot`, or
identical `bookedSlot` with strictly higher provider rating), and that
strictly precedes every success status placed before it in input order
(remaining ties resolved by input order). -/
theorem claim_C4 (ctx : SimCtx) (statuses : List SwarmCallStatus)
    (hwf : ∀ s ∈ statuses, s.status = CState.success →
      hasBooked s = true ∧ (bookedTime s).isSome = true) :
    (selectBestMatch ctx statuses = none ↔ ∀ s ∈ statuses, s.status ≠ CState.success) ∧
    (∀ b, selectBestMatch ctx statuses = some b →
      b ∈ statuses ∧ b.status = CState.success ∧
      (∀ s ∈ statuses, s.status = CState.success → ¬ specPrecedes ctx s b) ∧
      ∃ pre post,
        statuses.filter isSuccessfulWithSlot = pre ++ b :: post ∧
        ∀ y ∈ pre, specPrecedes ctx b y) := by
  have hmemSucc : ∀ s ∈ statuses.filter isSuccessfulWithSlot,
      s ∈ statuses ∧ s.status = CState.success := by
    intro s hs
    have h1 := List.mem_filter.mp hs
    refine ⟨h1.1, ?_⟩
    have h2 := h1.2
    unfold isSuccessfulWithSlot at h2
    exact beq_iff_eq.mp (Bool.and_elim_left h2)
  have hsome : ∀ s ∈ statuses.filter isSuccessfulWithSlot, (bookedTime s).isSome = true := by
    intro s hs
    exact (hwf s (hmemSucc s hs).1 (hmemSucc s hs).2).2
  have hinSucc : ∀ s ∈ statuses, s.status = CState.success →
      s ∈ statuses.filter isSuccessfulWithSlot := by
    intro s hs hstat
    refine List.mem_filter.mpr ⟨hs, ?_⟩
    unfold isSuccessfulWithSlot
    rw [(hwf s hs hstat).1, hstat]
    simp
  have hspec := stableSort_head_spec (bmBef ctx) (statuses.filter isSuccessfulWithSlot)
    (fun a ha b hb => bmBef_asymm ctx a b (hsome a ha) (hsome b hb))
    (fun a ha b hb c hc => bmBef_negtrans ctx a b c (hsome a ha) (hsome b hb) (hsome c hc))
  rcases hsort : stableSort (bmBef ctx) (statuses.filter isSuccessfulWithSlot)
    with _ | ⟨b0, rest⟩
  · rw [hsort] at hspec
    have hempty : statuses.filter isSuccessfulWithSlot = [] := hspec
    have hsel : selectBestMatch ctx statuses = none := by
      simp only [selectBestMatch]
      rw [hsort]
    refine ⟨⟨fun _ => ?_, fun _ => hsel⟩, fun b hb => ?_⟩
    · intro s hs hstat
      have := hinSucc s hs hstat
      rw [hempty] at this
      exact absurd this (List.not_mem_nil s)
    · rw [hsel] at hb
      cases hb
  · rw [hsort] at hspec
    rcases hspec with ⟨pre, post, hdecomp, hpre, hmin⟩
    have hb0succ : b0 ∈ statuses.filter isSuccessfulWithSlot := by
      rw [hdecomp]
      exact List.mem_append_right pre (List.mem_cons_self _ _)
    have hsel : selectBestMatch ctx statuses = some b0 := by
      simp only [selectBestMatch]
      rw [hsort]
    refine ⟨⟨fun hc => ?_, fun hall => ?_⟩, fun b hb => ?_⟩
    · rw [hsel] at hc
      cases hc
    · exact absurd (hmemSucc b0 hb0succ).2 (hall b0 (hmemSucc b0 hb0succ).1)
    · rw [hsel] at hb
      obtain rfl : b0 = b := by injection hb
      refine ⟨(hmemSucc b0 hb0succ).1, (hmemSucc b0 hb0succ).2, ?_, pre, post, hdecomp, ?_⟩
      · intro s hs hstat hsp
        have hsF := hinSucc s hs hstat
        have := hmin s hsF
        rw [← bmBef_iff_specPrecedes ctx s b0 (hsome s hsF) (hsome b0 hb0succ)] at hsp
        rw [this] at hsp
        cases hsp
      · intro y hy
        have hyF : y ∈ statuses.filter isSuccessfulWithSlot := by
          rw [hdecomp]
          exact List.mem_append_left _ hy
        exact (bmBef_iff_specPrecedes ctx b0 y (hsome b0 hb0succ) (hsome y hyF)).mp (hpre y hy)

/-- Witness data for best-match selection: two providers differing only in
rating. -/
def ratedProviderA : Provider :=
  { id := "pA"
    name := "Acme Physical Therapy"
    phone := "+1-617-555-0003"
    category := "physical_therapy"
    rating := 4
    address := "4 Main St, Boston, MA"
    distanceMiles := 2
    availableSlots := ["2025-06-03T10:00:00"] }

/-- The higher-rated provider of the best-match witness pair. -/
def ratedProviderB : Provider :=
  { id := "pB"
    name := "Beacon Physical Therapy"
    phone := "+1-617-555-0004"
    category := "physical_therapy"
    rating := 4.9
    address := "5 Main St, Boston, MA"
    distanceMiles := 2
    availableSlots := ["2025-06-03T10:00:00"] }

/-- Directory holding the witness pair. -/
def w4ctx : SimCtx :=
  { directory := [ratedProviderA, ratedProviderB]
    todayStr := "2025-06-02", tomorrowStr := "2025-06-03" }

/-- A success status for provider `pA` booked at the shared slot. -/
def w4StatusA : SwarmCallStatus :=
  { providerId := "pA"
    providerName := "Acme Physical Therapy"
    status := .success
    result := some
      { success := true
        providerId := "pA"
        providerName := "Acme Physical Therapy"
        message := "Confirmed"
        bookedSlot := some "2025-06-03T10:00:00"
        waitTime := 0
        transcript := [] } }

/-- A success status for provider `pB` booked at the same slot. -/
def w4StatusB : SwarmCallStatus :=
  { providerId := "pB"
    providerName := "Beacon Physical Therapy"
    status := .success
    result := some
      { success := true
        providerId := "pB"
        providerName := "Beacon Physical Therapy"
        message := "Confirmed"
        bookedSlot := some "2025-06-03T10:00:00"
        waitTime := 0
        transcript := [] } }

theorem claim_C4_witness :
    selectBestMatch w4ctx [w4StatusA, w4StatusB] = some w4StatusB ∧
    w4StatusB ∈ [w4StatusA, w4StatusB] ∧ w4StatusB.status = CState.success ∧
    (∀ s ∈ [w4StatusA, w4StatusB], s.status = CState.success →
      ¬ specPrecedes w4ctx s w4StatusB) ∧
    ∃ pre post,
      [w4StatusA, w4StatusB].filter isSuccessfulWithSlot = pre ++ w4StatusB :: post ∧
      ∀ y ∈ pre, specPrecedes w4ctx w4StatusB y := by
  have hsel : selectBestMatch w4ctx [w4StatusA, w4StatusB] = some w4StatusB := by
    with_unfolding_all decide
  exact ⟨hsel,
    (claim_C4 w4ctx [w4StatusA, w4StatusB] (by with_unfolding_all decide)).2 w4StatusB hsel⟩

/-! ## Claims about the swarm orchestrator loop

The status map is updated entry-wise; the lemmas below commute the
per-batch folds with the entry list, so that each entry's final state is a
function of the batch providers that share its id. -/

/-- The per-entry effect of writing the pairs `g p` for every `p` in a
batch, in order (later writers overwrite earlier ones). -/
def writeFold (g : Provider → CState × Option CallResult) (batch : List Provider)
    (s : SwarmCallStatus) : SwarmCallStatus :=
  batch.foldl
    (fun t p => if t.providerId == p.id then { t with status := (g p).1, result := (g p).2 }
      else t) s

theorem foldl_setStatusById_eq_map (g : Provider → CState × Option CallResult) :
    ∀ (batch : List Provider) (sts : List SwarmCallStatus),
      batch.foldl (fun acc p => setStatusById acc p.id (g p).1 (g p).2) sts
        = sts.map (writeFold g batch)
  | [], sts => by
    rw [show writeFold g [] = id from funext fun s => rfl, List.map_id]
    rfl
  | p :: rest, sts => by
    have step : setStatusById sts p.id (g p).1 (g p).2
        = sts.map fun s =>
            if s.providerId == p.id then { s with status := (g p).1, result := (g p).2 }
            else s := rfl
    calc (p :: rest).foldl (fun acc q => setStatusById acc q.id (g q).1 (g q).2) sts
        = rest.foldl (fun acc q => setStatusById acc q.id (g q).1 (g q).2)
            (setStatusById sts p.id (g p).1 (g p).2) := rfl
      _ = (setStatusById sts p.id (g p).1 (g p).2).map (writeFold g rest) :=
          foldl_setStatusById_eq_map g rest _
      _ = sts.map (writeFold g (p :: rest)) := by
          rw [step, List.map_map]
          rfl

theorem writeFold_id (g : Provider → CState × Option CallResult) :
    ∀ (batch : List Provider) (s : SwarmCallStatus),
      (∀ p ∈ batch, ¬(p.id = s.providerId)) → writeFold g batch s = s
  | [], s, _ => rfl
  | p :: rest, s, h => by
    unfold writeFold
    have hp : (s.providerId == p.id) = false := by
      simp only [beq_eq_false_iff_ne, ne_eq]
      intro hc
      exact h p (List.mem_cons_self _ _) hc.symm
    simp only [List.foldl_cons, hp, Bool.false_eq_true, if_false]
    exact writeFold_id g rest s fun q hq => h q (List.mem_cons_of_mem p hq)

theorem writeFold_fields (g : Provider → CState × Option CallResult) :
    ∀ (batch : List Provider) (s : SwarmCallStatus),
      (writeFold g batch s).providerId = s.providerId ∧
      (writeFold g batch s).providerName = s.providerName
  | [], _ => ⟨rfl, rfl⟩
  | p :: rest, s => by
    unfold writeFold
    simp only [List.foldl_cons]
    by_cases hp : (s.providerId == p.id) = true
    · rw [if_pos hp]
      exact writeFold_fields g rest _
    · rw [if_neg hp]
      exact writeFold_fields g rest s

theorem writeFold_append (g : Provider → CState × Option CallResult)
    (l1 l2 : List Provider) (s : SwarmCallStatus) :
    writeFold g (l1 ++ l2) s = writeFold g l2 (writeFold g l1 s) := by
  unfold writeFold
  rw [List.foldl_append]

theorem writeFold_cons (g : Provider → CState × Option CallResult)
    (p : Provider) (rest : List Provider) (s : SwarmCallStatus) :
    writeFold g (p :: rest) s
      = writeFold g rest
          (if s.providerId == p.id then { s with status := (g p).1, result := (g p).2 }
            else s) := rfl

theorem writeFold_last (g : Provider → CState × Option CallResult)
    (l1 : List Provider) (p : Provider) (l2 : List Provider) (s : SwarmCallStatus)
    (hid : p.id = s.providerId) (hl2 : ∀ q ∈ l2, ¬(q.id = s.providerId)) :
    (writeFold g (l1 ++ p :: l2) s).status = (g p).1 ∧
    (writeFold g (l1 ++ p :: l2) s).result = (g p).2 := by
  have hpid := (writeFold_fields g l1 s).1
  have hcond : ((writeFold g l1 s).providerId == p.id) = true := by
    rw [hpid, hid]
    exact beq_self_eq_true _
  rw [writeFold_append, writeFold_cons, if_pos hcond]
  rw [writeFold_id g l2 _ (by
    intro q hq hc
    exact hl2 q hq (hc.trans hpid))]
  exact ⟨rfl, rfl⟩

/-- The per-entry effect of one settled batch: the `calling` pass followed
by the outcome pass. -/
def batchWrite (env : SwarmEnv) (batch : List Provider) (s : SwarmCallStatus) :
    SwarmCallStatus :=
  writeFold (callOutcome env) batch (writeFold (fun _ => (CState.calling, none)) batch s)

theorem runBatch_fst_map (env : SwarmEnv) (batch : List Provider)
    (sts : List SwarmCallStatus) :
    (runBatch env batch sts).1 = sts.map (batchWrite env batch) := by
  unfold runBatch batchWrite
  simp only
  rw [foldl_setStatusById_eq_map (fun _ => (CState.calling, none)) batch sts]
  have h2 := foldl_setStatusById_eq_map (callOutcome env) batch
    (sts.map (writeFold (fun _ => (CState.calling, none)) batch))
  rw [h2, List.map_map]
  rfl

theorem batchWrite_fields (env : SwarmEnv) (batch : List Provider) (s : SwarmCallStatus) :
    (batchWrite env batch s).providerId = s.providerId ∧
    (batchWrite env batch s).providerName = s.providerName := by
  unfold batchWrite
  refine ⟨?_, ?_⟩
  · rw [(writeFold_fields _ _ _).1, (writeFold_fields _ _ _).1]
  · rw [(writeFold_fields _ _ _).2, (writeFold_fields _ _ _).2]

theorem batchWrite_id (env : SwarmEnv) (batch : List Provider) (s : SwarmCallStatus)
    (h : ∀ p ∈ batch, ¬(p.id = s.providerId)) : batchWrite env batch s = s := by
  unfold batchWrite
  rw [writeFold_id _ batch s h, writeFold_id _ batch s h]

theorem batchWrite_mem (env : SwarmEnv) (batch : List Provider) (s : SwarmCallStatus)
    (p : Provider) (hp : p ∈ batch) (hid : p.id = s.providerId)
    (hnd : (batch.map Provider.id).Nodup) :
    (batchWrite env batch s).status = (callOutcome env p).1 ∧
    (batchWrite env batch s).result = (callOutcome env p).2 := by
  rcases List.append_of_mem hp with ⟨l1, l2, rfl⟩
  have hl2 : ∀ q ∈ l2, ¬(q.id = s.providerId) := by
    intro q hq hc
    have hmap : (l1 ++ p :: l2).map Provider.id
        = l1.map Provider.id ++ p.id :: l2.map Provider.id := by simp
    rw [hmap] at hnd
    have hnd2 := (List.nodup_append.mp hnd).2.1
    have := (List.nodup_cons.mp hnd2).1
    exact this (by
      rw [hid, ← hc]
      exact List.mem_map_of_mem Provider.id hq)
  unfold batchWrite
  apply writeFold_last (callOutcome env) l1 p l2 _
    (by rw [(writeFold_fields _ _ _).1, hid])
    (by
      intro q hq hc
      rw [(writeFold_fields _ _ _).1] at hc
      exact hl2 q hq hc)

theorem createBatchesGo_flatten (k : Nat) (hk : 0 < k) :
    ∀ (fuel : Nat) (l : List α), l.length ≤ fuel → (createBatchesGo k fuel l).flatten = l
  | fuel, [], _ => by cases fuel <;> rfl
  | 0, x :: xs, h => by simp at h
  | fuel + 1, x :: xs, h => by
    unfold createBatchesGo
    rw [List.flatten_cons]
    rw [createBatchesGo_flatten k hk fuel ((x :: xs).drop k) (by
      have hlen : ((x :: xs).drop k).length = (x :: xs).length - k := List.length_drop _ _
      have : (x :: xs).length = xs.length + 1 := rfl
      omega)]
    exact List.take_append_drop k (x :: xs)

theorem createBatches_flatten (l : List α) (k : Nat) (hk : 0 < k) :
    (createBatches l k).flatten = l := by
  unfold createBatches
  match k, hk with
  | j + 1, _ => exact createBatchesGo_flatten (j + 1) (Nat.succ_pos j) l.length l (le_refl _)

theorem nodup_flatten_parts (f : α → β) :
    ∀ (bs : List (List α)), ((bs.flatten).map f).Nodup → ∀ b ∈ bs, (b.map f).Nodup
  | [], _, b, hb => absurd hb (List.not_mem_nil b)
  | x :: bs, h, b, hb => by
    rw [List.flatten_cons, List.map_append] at h
    rcases List.nodup_append.mp h with ⟨hx, hrest, _⟩
    rcases List.mem_cons.mp hb with rfl | hb
    · exact hx
    · exact nodup_flatten_parts f bs hrest b hb

/-- A call status state reached by a settled run: one of the four outcome
partitions of a `SwarmResult`. -/
def SettledState (c : CState) : Prop :=
  c = .success ∨ c = .failed ∨ c = .timeout ∨ c = .cancelled

theorem callOutcome_settled (env : SwarmEnv) (p : Provider) :
    SettledState (callOutcome env p).1 := by
  unfold callOutcome
  rcases env.race p.id with rand | _
  · simp only
    split
    · exact Or.inl rfl
    · exact Or.inr (Or.inl rfl)
  · exact Or.inr (Or.inr (Or.inl rfl))

theorem settled_ne_pending (c : CState) (h : SettledState c) : c ≠ .pending := by
  rcases h with rfl | rfl | rfl | rfl <;> intro hc <;> cases hc

theorem runBatches_settled (env : SwarmEnv) (stop : Bool) :
    ∀ (batches : List (List Provider)) (sts : List SwarmCallStatus),
      (∀ b ∈ batches, (b.map Provider.id).Nodup) →
      (∀ s ∈ sts, s.status = .pending → ∃ b ∈ batches, ∃ p ∈ b, p.id = s.providerId) →
      (∀ s ∈ sts, s.status = .pending ∨ SettledState s.status) →
      ∀ s ∈ (runBatches env stop batches sts).1, SettledState s.status
  | [], sts, _, hcover, hsettled, s, hs => by
    rcases hsettled s hs with hpend | hset
    · rcases hcover s hs hpend with ⟨b, hb, _⟩
      exact absurd hb (List.not_mem_nil b)
    · exact hset
  | batch :: rest, sts, hbnd, hcover, hsettled, s, hs => by
    have hmap := runBatch_fst_map env batch sts
    have hinv1 : ∀ s' ∈ (runBatch env batch sts).1,
        s'.status = .pending ∨ SettledState s'.status := by
      intro s' hs'
      rw [hmap] at hs'
      rcases List.mem_map.mp hs' with ⟨t, ht, rfl⟩
      by_cases hcov : ∃ p ∈ batch, p.id = t.providerId
      · rcases hcov with ⟨p, hp, hpid⟩
        have := batchWrite_mem env batch t p hp hpid (hbnd batch (List.mem_cons_self _ _))
        rw [this.1]
        exact Or.inr (callOutcome_settled env p)
      · rw [batchWrite_id env batch t (by
          intro p hp hc
          exact hcov ⟨p, hp, hc⟩)]
        exact hsettled t ht
    have hinv2 : ∀ s' ∈ (runBatch env batch sts).1, s'.status = .pending →
        ∃ b ∈ rest, ∃ p ∈ b, p.id = s'.providerId := by
      intro s' hs' hpend
      rw [hmap] at hs'
      rcases List.mem_map.mp hs' with ⟨t, ht, rfl⟩
      by_cases hcov : ∃ p ∈ batch, p.id = t.providerId
      · rcases hcov with ⟨p, hp, hpid⟩
        have := batchWrite_mem env batch t p hp hpid (hbnd batch (List.mem_cons_self _ _))
        rw [this.1] at hpend
        exact absurd hpend (settled_ne_pending _ (callOutcome_settled env p))
      · have hid : batchWrite env batch t = t := batchWrite_id env batch t (by
          intro p hp hc
          exact hcov ⟨p, hp, hc⟩)
        rw [hid] at hpend ⊢
        rcases hcover t ht hpend with ⟨b, hb, p, hp, hpid⟩
        rcases List.mem_cons.mp hb with rfl | hb
        · exact absurd ⟨p, hp, hpid⟩ hcov
        · exact ⟨b, hb, p, hp, hpid⟩
    unfold runBatches at hs
    by_cases hstop : (stop && batchHasSuccess env batch) = true
    · rw [if_pos hstop] at hs
      simp only [cancelPending] at hs
      rcases List.mem_map.mp hs with ⟨t, ht, rfl⟩
      unfold cancelWrite
      by_cases hp : (t.status == CState.pending) = true
      · rw [if_pos hp]
        exact Or.inr (Or.inr (Or.inr rfl))
      · rw [if_neg hp]
        rcases hinv1 t ht with hpend | hset
        · exact absurd (beq_iff_eq.mpr hpend) hp
        · exact hset
    · rw [if_neg hstop] at hs
      exact runBatches_settled env stop rest (runBatch env batch sts).1
        (fun b hb => hbnd b (List.mem_cons_of_mem batch hb)) hinv2 hinv1 s hs

theorem runBatches_length (env : SwarmEnv) (stop : Bool) :
    ∀ (batches : List (List Provider)) (sts : List SwarmCallStatus),
      ((runBatches env stop batches sts).1).length = sts.length
  | [], _ => rfl
  | batch :: rest, sts => by
    unfold runBatches
    by_cases hstop : (stop && batchHasSuccess env batch) = true
    · rw [if_pos hstop]
      simp only [cancelPending, List.length_map]
      rw [runBatch_fst_map, List.length_map]
    · rw [if_neg hstop]
      rw [runBatches_length env stop rest (runBatch env batch sts).1]
      rw [runBatch_fst_map, List.length_map]

theorem settled_partition_count :
    ∀ (l : List SwarmCallStatus), (∀ s ∈ l, SettledState s.status) →
      (l.filter fun s => s.status == CState.success).length
        + (l.filter fun s => s.status == CState.failed || s.status == CState.timeout).length
        + (l.filter fun s => s.status == CState.cancelled).length
        = l.length
  | [], _ => rfl
  | s :: l, h => by
    have ih := settled_partition_count l fun t ht => h t (List.mem_cons_of_mem s ht)
    have hset := h s (List.mem_cons_self s l)
    rcases hset with hst | hst | hst | hst <;>
      simp only [List.filter_cons, hst, List.length_cons] <;> simp <;> omega

/-- C5 — for a normally completing `executeSwarm` (positive batch size;
provider ids unique, as the data model requires — the id-keyed status map
collapses duplicates otherwise), every provider's status settles in exactly
one of the three partitions: successes, failures (failed + timeout) and
cancellations together count `totalProviders`, with nothing left `pending`
or `calling`. -/
theorem claim_C5 (env : SwarmEnv) (cfg : SwarmConfig) (providers : List Provider)
    (hk : 0 < cfg.maxConcurrentCalls) (hnd : (providers.map Provider.id).Nodup) :
    (executeSwarm env cfg providers).1.successfulBookings.length
      + (executeSwarm env cfg providers).1.failedCalls.length
      + (executeSwarm env cfg providers).1.cancelledCalls.length
      = (executeSwarm env cfg providers).1.totalProviders := by
  have hflat : (createBatches providers cfg.maxConcurrentCalls).flatten = providers :=
    createBatches_flatten providers _ hk
  have hsettled := runBatches_settled env cfg.stopOnFirstSuccess
    (createBatches providers cfg.maxConcurrentCalls)
    (providers.map fun p =>
      { providerId := p.id, providerName := p.name, status := CState.pending })
    (by
      intro b hb
      apply nodup_flatten_parts Provider.id _ _ b hb
      rw [hflat]
      exact hnd)
    (by
      intro s hsmem hpend
      rcases List.mem_map.mp hsmem with ⟨p, hp, rfl⟩
      have hp' : p ∈ (createBatches providers cfg.maxConcurrentCalls).flatten := by
        rw [hflat]
        exact hp
      rcases List.mem_flatten.mp hp' with ⟨b, hb, hpb⟩
      exact ⟨b, hb, p, hpb, rfl⟩)
    (by
      intro s hsmem
      rcases List.mem_map.mp hsmem with ⟨p, hp, rfl⟩
      exact Or.inl rfl)
  have hcount := settled_partition_count
    ((runBatches env cfg.stopOnFirstSuccess (createBatches providers cfg.maxConcurrentCalls)
      (providers.map fun p =>
        { providerId := p.id, providerName := p.name, status := CState.pending })).1)
    hsettled
  have hlen := runBatches_length env cfg.stopOnFirstSuccess
    (createBatches providers cfg.maxConcurrentCalls)
    (providers.map fun p =>
      { providerId := p.id, providerName := p.name, status := CState.pending })
  rw [List.length_map] at hlen
  show (List.filter _ _).length + (List.filter _ _).length + (List.filter _ _).length
    = providers.length
  rw [hcount, hlen]

/-- Swarm-run witness directory: the 23:00-only provider and the perfect
provider. -/
def w5ctx : SimCtx :=
  { directory := [demoProvider, perfectProvider]
    todayStr := "2025-06-02", tomorrowStr := "2025-06-03" }

/-- Swarm-run witness environment: every race finishes (draw 0, no
timeouts). -/
def w5env : SwarmEnv :=
  { ctx := w5ctx
    requestedSlot := "2025-06-02T10:00:00"
    serviceDescription := none
    race := fun _ => .finished 0 }

theorem claim_C5_witness :
    0 < DEFAULT_CONFIG.maxConcurrentCalls ∧
    (([demoProvider, perfectProvider].map Provider.id).Nodup ∧
      (executeSwarm w5env DEFAULT_CONFIG [demoProvider, perfectProvider]).1.successfulBookings.length
        + (executeSwarm w5env DEFAULT_CONFIG [demoProvider, perfectProvider]).1.failedCalls.length
        + (executeSwarm w5env DEFAULT_CONFIG
            [demoProvider, perfectProvider]).1.cancelledCalls.length
        = (executeSwarm w5env DEFAULT_CONFIG [demoProvider, perfectProvider]).1.totalProviders) :=
  ⟨by decide, by decide,
    claim_C5 w5env DEFAULT_CONFIG [demoProvider, perfectProvider] (by decide) (by decide)⟩

/-! ## The early-stop run shape -/

/-- The statuses after processing a list of batches in order (no early
stop). -/
def foldStatuses (env : SwarmEnv) (bs : List (List Provider))
    (sts : List SwarmCallStatus) : List SwarmCallStatus :=
  bs.foldl (fun acc b => (runBatch env b acc).1) sts

/-- The `onStatusUpdate` notifications of one settled batch. -/
def batchEvents (env : SwarmEnv) (b : List Provider) : List Event :=
  b.map (fun p => ⟨p.id, .calling⟩) ++ b.map fun p => ⟨p.id, (callOutcome env p).1⟩

/-- The notifications of a list of settled batches. -/
def batchesEvents (env : SwarmEnv) (bs : List (List Provider)) : List Event :=
  (bs.map (batchEvents env)).flatten

theorem runBatch_snd (env : SwarmEnv) (b : List Provider) (sts : List SwarmCallStatus) :
    (runBatch env b sts).2 = batchEvents env b := rfl

/-- With `stopOnFirstSuccess` on, a run whose first successful batch is `B`
processes exactly the batches up to and including `B`, cancels what is
still pending, and stops: the batches after `B` contribute nothing. -/
theorem runBatches_early_stop (env : SwarmEnv) :
    ∀ (pre : List (List Provider)) (B : List Provider) (post : List (List Provider))
      (sts : List SwarmCallStatus),
      (∀ b ∈ pre, batchHasSuccess env b = false) →
      batchHasSuccess env B = true →
      runBatches env true (pre ++ B :: post) sts
        = ((cancelPending (foldStatuses env (pre ++ [B]) sts)).1,
            batchesEvents env (pre ++ [B])
              ++ (cancelPending (foldStatuses env (pre ++ [B]) sts)).2)
  | [], B, post, sts, _, hB => by
    show runBatches env true (B :: post) sts = _
    unfold runBatches
    have hcond : (true && batchHasSuccess env B) = true := by rw [hB]; rfl
    rw [if_pos hcond]
    have hf : foldStatuses env ([] ++ [B]) sts = (runBatch env B sts).1 := rfl
    have he : batchesEvents env ([] ++ [B]) = batchEvents env B := by
      simp [batchesEvents]
    rw [hf, he, runBatch_snd]
  | b :: pre', B, post, sts, hpre, hB => by
    show runBatches env true (b :: (pre' ++ B :: post)) sts = _
    unfold runBatches
    have hcond : (true && batchHasSuccess env b) = false := by
      rw [hpre b (List.mem_cons_self _ _)]
      rfl
    rw [if_neg (by rw [hcond]; exact Bool.false_ne_true)]
    rw [runBatches_early_stop env pre' B post (runBatch env b sts).1
      (fun b' hb' => hpre b' (List.mem_cons_of_mem b hb')) hB]
    have hf : foldStatuses env ((b :: pre') ++ [B]) sts
        = foldStatuses env (pre' ++ [B]) (runBatch env b sts).1 := rfl
    have he : batchesEvents env ((b :: pre') ++ [B])
        = batchEvents env b ++ batchesEvents env (pre' ++ [B]) := by
      simp [batchesEvents]
    rw [hf, he, runBatch_snd, List.append_assoc]

/-- The per-entry effect of processing a list of batches. -/
def batchesWrite (env : SwarmEnv) (bs : List (List Provider)) (s : SwarmCallStatus) :
    SwarmCallStatus :=
  bs.foldl (fun t b => batchWrite env b t) s

theorem foldStatuses_map (env : SwarmEnv) :
    ∀ (bs : List (List Provider)) (sts : List SwarmCallStatus),
      foldStatuses env bs sts = sts.map (batchesWrite env bs)
  | [], sts => by
    rw [show batchesWrite env [] = id from funext fun s => rfl, List.map_id]
    rfl
  | b :: bs, sts => by
    have h1 : foldStatuses env (b :: bs) sts
        = foldStatuses env bs (runBatch env b sts).1 := rfl
    rw [h1, foldStatuses_map env bs, runBatch_fst_map, List.map_map]
    rfl

theorem batchesWrite_fields (env : SwarmEnv) :
    ∀ (bs : List (List Provider)) (s : SwarmCallStatus),
      (batchesWrite env bs s).providerId = s.providerId ∧
      (batchesWrite env bs s).providerName = s.providerName
  | [], _ => ⟨rfl, rfl⟩
  | b :: bs, s => by
    have h1 : batchesWrite env (b :: bs) s = batchesWrite env bs (batchWrite env b s) := rfl
    rw [h1]
    rcases batchesWrite_fields env bs (batchWrite env b s) with ⟨h2, h3⟩
    rcases batchWrite_fields env b s with ⟨h4, h5⟩
    exact ⟨h2.trans h4, h3.trans h5⟩

theorem batchesWrite_id (env : SwarmEnv) :
    ∀ (bs : List (List Provider)) (s : SwarmCallStatus),
      (∀ b ∈ bs, ∀ p ∈ b, ¬(p.id = s.providerId)) → batchesWrite env bs s = s
  | [], _, _ => rfl
  | b :: bs, s, h => by
    have h1 : batchesWrite env (b :: bs) s = batchesWrite env bs (batchWrite env b s) := rfl
    rw [h1, batchWrite_id env b s (h b (List.mem_cons_self _ _))]
    exact batchesWrite_id env bs s fun b' hb' => h b' (List.mem_cons_of_mem b hb')

theorem batchesWrite_append (env : SwarmEnv) (l1 l2 : List (List Provider))
    (s : SwarmCallStatus) :
    batchesWrite env (l1 ++ l2) s = batchesWrite env l2 (batchesWrite env l1 s) := by
  unfold batchesWrite
  rw [List.foldl_append]

theorem batchesWrite_mem (env : SwarmEnv) (l1 : List (List Provider)) (bq : List Provider)
    (l2 : List (List Provider)) (s : SwarmCallStatus) (p : Provider)
    (hp : p ∈ bq) (hid : p.id = s.providerId) (hbqnd : (bq.map Provider.id).Nodup)
    (hl2 : ∀ b ∈ l2, ∀ q ∈ b, ¬(q.id = s.providerId)) :
    (batchesWrite env (l1 ++ bq :: l2) s).status = (callOutcome env p).1 ∧
    (batchesWrite env (l1 ++ bq :: l2) s).result = (callOutcome env p).2 := by
  rw [show l1 ++ bq :: l2 = (l1 ++ [bq]) ++ l2 by simp]
  rw [batchesWrite_append, batchesWrite_append]
  have hpid1 := (batchesWrite_fields env l1 s).1
  have hmem := batchWrite_mem env bq (batchesWrite env l1 s) p hp (hid.trans hpid1.symm) hbqnd
  have hone : batchesWrite env [bq] (batchesWrite env l1 s)
      = batchWrite env bq (batchesWrite env l1 s) := rfl
  rw [hone]
  rw [batchesWrite_id env l2 _ (by
    intro b hb q hq hc
    apply hl2 b hb q hq
    rw [hc, (batchWrite_fields env bq _).1, hpid1])]
  exact hmem

theorem cancelWrite_providerId (s : SwarmCallStatus) :
    (cancelWrite s).providerId = s.providerId := by
  unfold cancelWrite
  by_cases h : (s.status == CState.pending) = true
  · rw [if_pos h]
  · rw [if_neg h]

theorem cancelWrite_of_pending (s : SwarmCallStatus) (h : s.status = .pending) :
    cancelWrite s = { s with status := .cancelled } := by
  unfold cancelWrite
  rw [if_pos (beq_iff_eq.mpr h)]

theorem cancelWrite_of_ne (s : SwarmCallStatus) (h : s.status ≠ .pending) :
    cancelWrite s = s := by
  unfold cancelWrite
  rw [if_neg (by simpa using h)]

theorem settled_ne_calling (c : CState) (h : SettledState c) : c ≠ .calling := by
  rcases h with rfl | rfl | rfl | rfl <;> intro hc <;> cases hc

/-- C9 — with `stopOnFirstSuccess` on, once the first batch containing a
success (`B`) settles, every provider of a later batch is never launched
(no `calling` notification ever mentions it), its status goes straight from
`pending` to `cancelled` (with a `cancelled` notification), while every
provider of `B` or an earlier batch was launched and keeps exactly its own
race outcome — cancellation does not touch settled calls. -/
theorem claim_C9 (env : SwarmEnv) (cfg : SwarmConfig) (providers : List Provider)
    (hstop : cfg.stopOnFirstSuccess = true) (hk : 0 < cfg.maxConcurrentCalls)
    (hnd : (providers.map Provider.id).Nodup)
    (pre : List (List Provider)) (B : List Provider) (post : List (List Provider))
    (hbatches : createBatches providers cfg.maxConcurrentCalls = pre ++ B :: post)
    (hpre : ∀ b ∈ pre, batchHasSuccess env b = false)
    (hB : batchHasSuccess env B = true) :
    (∀ q ∈ post.flatten,
      (∀ s ∈ (executeSwarm env cfg providers).1.callStatuses, s.providerId = q.id →
        s.status = CState.cancelled) ∧
      Event.mk q.id CState.calling ∉ (executeSwarm env cfg providers).2 ∧
      Event.mk q.id CState.cancelled ∈ (executeSwarm env cfg providers).2) ∧
    (∀ q ∈ (pre ++ [B]).flatten,
      Event.mk q.id CState.calling ∈ (executeSwarm env cfg providers).2 ∧
      ∀ s ∈ (executeSwarm env cfg providers).1.callStatuses, s.providerId = q.id →
        s.status = (callOutcome env q).1 ∧ s.result = (callOutcome env q).2) := by
  have hflat : (pre ++ B :: post).flatten = providers := by
    rw [← hbatches]
    exact createBatches_flatten providers _ hk
  have hsplit : providers = (pre ++ [B]).flatten ++ post.flatten := by
    rw [← hflat]
    simp
  have hndAll : (((pre ++ [B]).flatten).map Provider.id
      ++ (post.flatten).map Provider.id).Nodup := by
    rw [← List.map_append, ← hsplit]
    exact hnd
  have hndProc : (((pre ++ [B]).flatten).map Provider.id).Nodup :=
    (List.nodup_append.mp hndAll).1
  have hdisj := (List.nodup_append.mp hndAll).2.2
  have hprocdisj : ∀ q ∈ post.flatten, ∀ b ∈ pre ++ [B], ∀ r ∈ b, ¬(r.id = q.id) := by
    intro q hq b hb r hr hc
    exact hdisj (hc ▸ List.mem_map_of_mem Provider.id (List.mem_flatten.mpr ⟨b, hb, hr⟩))
      (List.mem_map_of_mem Provider.id hq)
  have hrun := runBatches_early_stop env pre B post
    (providers.map fun p =>
      { providerId := p.id, providerName := p.name, status := CState.pending })
    hpre hB
  have hstatuses : (executeSwarm env cfg providers).1.callStatuses
      = (cancelPending (foldStatuses env (pre ++ [B])
          (providers.map fun p =>
            { providerId := p.id, providerName := p.name, status := CState.pending }))).1 := by
    show (runBatches env cfg.stopOnFirstSuccess (createBatches providers cfg.maxConcurrentCalls)
      (providers.map fun p =>
        { providerId := p.id, providerName := p.name, status := CState.pending })).1 = _
    rw [hbatches, hstop, hrun]
  have hevents : (executeSwarm env cfg providers).2
      = batchesEvents env (pre ++ [B])
        ++ (cancelPending (foldStatuses env (pre ++ [B])
            (providers.map fun p =>
              { providerId := p.id, providerName := p.name, status := CState.pending }))).2 := by
    show (runBatches env cfg.stopOnFirstSuccess (createBatches providers cfg.maxConcurrentCalls)
      (providers.map fun p =>
        { providerId := p.id, providerName := p.name, status := CState.pending })).2 = _
    rw [hbatches, hstop, hrun]
  have hmid : foldStatuses env (pre ++ [B])
      (providers.map fun p =>
        { providerId := p.id, providerName := p.name, status := CState.pending })
      = providers.map fun p => batchesWrite env (pre ++ [B])
          { providerId := p.id, providerName := p.name, status := CState.pending } := by
    rw [foldStatuses_map, List.map_map]
    rfl
  constructor
  · intro q hq
    have huntouched : batchesWrite env (pre ++ [B])
        { providerId := q.id, providerName := q.name, status := CState.pending }
        = { providerId := q.id, providerName := q.name, status := CState.pending } := by
      apply batchesWrite_id
      intro b hb r hr
      exact hprocdisj q hq b hb r hr
    refine ⟨?_, ?_, ?_⟩
    · intro s hs hsid
      rw [hstatuses] at hs
      simp only [cancelPending, hmid, List.map_map] at hs
      rcases List.mem_map.mp hs with ⟨p, hp, rfl⟩
      set t := batchesWrite env (pre ++ [B])
        { providerId := p.id, providerName := p.name, status := CState.pending } with htdef
      have htid : t.providerId = p.id := (batchesWrite_fields env _ _).1
      have hpid : p.id = q.id := by
        rw [← hsid]
        show p.id = (cancelWrite t).providerId
        rw [cancelWrite_providerId, htid]
      have hpq : p = q := List.inj_on_of_nodup_map hnd hp
        (by rw [hsplit]; exact List.mem_append_right _ hq) hpid
      subst hpq
      show (cancelWrite t).status = CState.cancelled
      rw [htdef, huntouched]
      rfl
    · intro hmem
      rw [hevents] at hmem
      rcases List.mem_append.mp hmem with hmem | hmem
      · rcases List.mem_flatten.mp hmem with ⟨evl, hevl, hev⟩
        rcases List.mem_map.mp hevl with ⟨b, hb, rfl⟩
        rcases List.mem_append.mp hev with hev | hev
        · rcases List.mem_map.mp hev with ⟨r, hr, heq⟩
          have : r.id = q.id := by injection heq
          exact hprocdisj q hq b hb r hr this
        · rcases List.mem_map.mp hev with ⟨r, hr, heq⟩
          have : (callOutcome env r).1 = CState.calling := by injection heq
          exact settled_ne_calling _ (callOutcome_settled env r) this
      · rcases List.mem_map.mp hmem with ⟨t, _, heq⟩
        have : CState.cancelled = CState.calling := by injection heq
        cases this
    · rw [hevents]
      apply List.mem_append_right
      simp only [cancelPending, hmid]
      have hqprov : q ∈ providers := by
        rw [hsplit]
        exact List.mem_append_right _ hq
      apply List.mem_map.mpr
      refine ⟨batchesWrite env (pre ++ [B])
        { providerId := q.id, providerName := q.name, status := CState.pending }, ?_, ?_⟩
      · apply List.mem_filter.mpr
        refine ⟨List.mem_map_of_mem _ hqprov, ?_⟩
        rw [huntouched]
        rfl
      · rw [huntouched]
  · intro q hq
    rcases List.mem_flatten.mp hq with ⟨bq, hbq, hqbq⟩
    have hqprov : q ∈ providers := by
      rw [hsplit]
      exact List.mem_append_left _ hq
    constructor
    · rw [hevents]
      apply List.mem_append_left
      apply List.mem_flatten.mpr
      refine ⟨batchEvents env bq, List.mem_map_of_mem _ hbq, ?_⟩
      exact List.mem_append_left _ (List.mem_map.mpr ⟨q, hqbq, rfl⟩)
    · intro s hs hsid
      rw [hstatuses] at hs
      simp only [cancelPending, hmid, List.map_map] at hs
      rcases List.mem_map.mp hs with ⟨p, hp, rfl⟩
      set t := batchesWrite env (pre ++ [B])
        { providerId := p.id, providerName := p.name, status := CState.pending } with htdef
      have htid : t.providerId = p.id := (batchesWrite_fields env _ _).1
      have hpid : p.id = q.id := by
        rw [← hsid]
        show p.id = (cancelWrite t).providerId
        rw [cancelWrite_providerId, htid]
      have hpq : p = q := List.inj_on_of_nodup_map hnd hp hqprov hpid
      subst hpq
      rcases List.append_of_mem hbq with ⟨l1, l2, hdecomp⟩
      have hbqnd : (bq.map Provider.id).Nodup :=
        nodup_flatten_parts Provider.id (pre ++ [B]) hndProc bq hbq
      have hndProc2 : (((List.flatten l1).map Provider.id)
          ++ ((bq.map Provider.id) ++ ((List.flatten l2).map Provider.id))).Nodup := by
        have := hndProc
        rw [hdecomp] at this
        simpa using this
      have hdisj2 := (List.nodup_append.mp (List.nodup_append.mp hndProc2).2.1).2.2
      have hl2 : ∀ b ∈ l2, ∀ r ∈ b,
          ¬(r.id = (SwarmCallStatus.mk p.id p.name CState.pending none).providerId) := by
        intro b hb r hr hc
        exact hdisj2 (hc ▸ List.mem_map_of_mem Provider.id hqbq)
          (List.mem_map_of_mem Provider.id (List.mem_flatten.mpr ⟨b, hb, hr⟩))
      have hw := batchesWrite_mem env l1 bq l2
        { providerId := p.id, providerName := p.name, status := CState.pending } p hqbq rfl
        hbqnd hl2
      rw [← hdecomp] at hw
      have hne : t.status ≠ CState.pending := by
        rw [htdef, hw.1]
        exact settled_ne_pending _ (callOutcome_settled env p)
      have hcw : cancelWrite t = t := cancelWrite_of_ne t hne
      refine ⟨?_, ?_⟩
      · show (cancelWrite t).status = _
        rw [hcw, htdef, hw.1]
      · show (cancelWrite t).result = _
        rw [hcw, htdef, hw.2]

/-- Serial configuration (batch size 1) used to witness early stop. -/
def w9cfg : SwarmConfig :=
  { maxConcurrentCalls := 1, timeoutMs := 15000, stopOnFirstSuccess := true,
    retryFailedCalls := false }

/-- Witness directory for the early-stop run. -/
def w9ctx : SimCtx :=
  { directory := [perfectProvider, demoProvider, lateNightProvider]
    todayStr := "2025-06-02", tomorrowStr := "2025-06-03" }

/-- Witness environment: the first provider's negotiation succeeds. -/
def w9env : SwarmEnv :=
  { ctx := w9ctx
    requestedSlot := "2025-06-02T10:00:00"
    serviceDescription := none
    race := fun _ => .finished 0 }

theorem claim_C9_witness :
    (∀ s ∈ (executeSwarm w9env w9cfg
        [perfectProvider, demoProvider, lateNightProvider]).1.callStatuses,
      s.providerId = demoProvider.id → s.status = CState.cancelled) ∧
    Event.mk demoProvider.id CState.calling
      ∉ (executeSwarm w9env w9cfg [perfectProvider, demoProvider, lateNightProvider]).2 ∧
    Event.mk demoProvider.id CState.cancelled
      ∈ (executeSwarm w9env w9cfg [perfectProvider, demoProvider, lateNightProvider]).2 :=
  (claim_C9 w9env w9cfg [perfectProvider, demoProvider, lateNightProvider] rfl (by decide)
      (by decide) [] [perfectProvider] [[demoProvider], [lateNightProvider]]
      (by with_unfolding_all decide)
      (fun b hb => absurd hb (List.not_mem_nil b))
      (by with_unfolding_all decide)).1
    demoProvider (by with_unfolding_all decide)

end Booking
